import Mathlib

/-!
# Time-series forecasting engine of `src/App.jsx`

A shallow embedding of the numerical core of the application: the forecasters
(`movingAverage`, `linearRegression`, `simpleExponentialSmoothing`,
`holtSmoothing`, `holtWintersAdditive`, `holtWintersMultiplicative`), the
metrics evaluator `calculateMetrics`, the seasonality detector
`detectSeasonality`, the statistics `calculateStats` and the orchestrator
`runAnalysis`.

Conventions of the embedding.

* A JavaScript number is an exact rational (`ℚ`): every finite double is a
  rational, and the arithmetic of the real-valued results (forecasts, metrics,
  autocorrelations, statistics) is the exact one (no rounding).
* Where a rounding decides a discrete result or a constant of the source is
  compared with a stored value, the double is modelled: `roundDouble` rounds a
  rational to the nearest binary64 value (ties to even), and is used for the
  product `values.length * trainRatio` under `Math.floor` and for the threshold
  `0.3` of the seasonality detector.
* Where overflow matters (the multiplicative Holt-Winters method), the
  arithmetic is the one of doubles: a `JsNum` is a finite double, `Infinity`,
  `-Infinity` or `NaN`, and every operation rounds its exact result.
* A value that may be `null`, `undefined` or `NaN` is an `Option ℚ`, with
  `none` for all three: the code only ever tests such values with
  `x !== null && !isNaN(x)` or compares them with `>`, and both treat the three
  alike.
* `Math.sqrt` and `Math.log` are kept symbolically (`SqrtVal`, `AicVal`,
  `BicVal`); theorems read a `SqrtVal` through `Real.sqrt`.
-/

namespace TimeSeries

/-! ## Numeric helpers -/

/-- Division `a / b` of two finite numbers. When `b = 0` the JavaScript result is
not a finite number and the model returns `none`; at every use below a zero
denominator comes with a zero numerator on the inputs `runAnalysis` passes, so
that the JavaScript value is `NaN` (see the comment at each use). -/
def jsDiv (a b : ℚ) : Option ℚ :=
  if b = 0 then none else some (a / b)

/-- The reduction `xs.reduce((a, b) => a + b, 0)`. -/
def reduceAdd (xs : List ℚ) : ℚ :=
  xs.foldl (fun a b => a + b) 0

/-- Resolution of a relative index by `Array.prototype.slice`: a negative index
counts from the end, and the result is clamped to `[0, len]`. -/
def sliceIndex (len : ℕ) (k : ℤ) : ℕ :=
  if k < 0 then (len + k).toNat else min k.toNat len

/-- The call `xs.slice(start, stop)`. -/
def jsSlice {α : Type} (xs : List α) (start stop : ℤ) : List α :=
  (xs.take (sliceIndex xs.length stop)).drop (sliceIndex xs.length start)

/-- The call `xs.slice(start)`. -/
def jsSliceFrom {α : Type} (xs : List α) (start : ℤ) : List α :=
  xs.drop (sliceIndex xs.length start)

/-- The comparison `a > b` of two numbers that may be `NaN`: false as soon as one
of them is `NaN`. -/
def jsGt (a b : Option ℚ) : Bool :=
  match a, b with
  | some x, some y => decide (y < x)
  | _, _ => false

/-! ### Rounding to binary64

The arithmetic of the model is exact. Where a discrete result of the program
depends on the rounding of a double operation, the operation is rounded
explicitly with `roundDouble`. -/

/-- The power `2 ^ z` of two at an integer exponent. -/
def pow2 (z : ℤ) : ℚ :=
  if 0 ≤ z then ((2 ^ z.toNat : ℕ) : ℚ) else 1 / ((2 ^ (-z).toNat : ℕ) : ℚ)

/-- The number of halvings that bring `n` below `2`, with `fuel` as the bound of
the recursion. -/
def log2Fuel : ℕ → ℕ → ℕ
  | 0, _ => 0
  | fuel + 1, n => if n < 2 then 0 else log2Fuel fuel (n / 2) + 1

/-- The binary exponent of a positive rational: the integer `e` with
`2 ^ e ≤ q < 2 ^ (e + 1)`. -/
def log2Floor (q : ℚ) : ℤ :=
  let a : ℤ := (log2Fuel q.num.natAbs q.num.natAbs : ℤ) - (log2Fuel q.den q.den : ℤ)
  if pow2 a ≤ q then a else a - 1

/-- Rounding of a non-negative rational to the nearest integer, ties to even. -/
def roundHalfEven (x : ℚ) : ℤ :=
  if x - ⌊x⌋ < 1 / 2 then ⌊x⌋
  else if 1 / 2 < x - ⌊x⌋ then ⌊x⌋ + 1
  else if ⌊x⌋ % 2 = 0 then ⌊x⌋ else ⌊x⌋ + 1

/-- Rounding of a real number to binary64: 53-bit significand, round to nearest,
ties to even, gradual underflow below `2 ^ (-1022)`. The overflow to
`Infinity` (from `2 ^ 1024` on) is handled by `JsNum.ofReal`. -/
def roundDouble (q : ℚ) : ℚ :=
  if q = 0 then 0
  else
    let ulp := pow2 (max (log2Floor |q|) (-1022) - 52)
    (if q < 0 then -1 else 1) * (roundHalfEven (|q| / ulp) : ℚ) * ulp

/-- The exact value `Math.sqrt(radicand)`. -/
structure SqrtVal where
  radicand : ℚ
  deriving DecidableEq, Repr

/-- The exact value `n * Math.log(arg) + 2 * 3`. -/
structure AicVal where
  n : ℕ
  arg : ℚ
  deriving DecidableEq, Repr

/-- The exact value `n * Math.log(arg) + 3 * Math.log(n)`. -/
structure BicVal where
  n : ℕ
  arg : ℚ
  deriving DecidableEq, Repr

/-! ## Forecasters -/

/-- The function `movingAverage(data, window)` (the source's default window is
`3`). Position `i` is `null` when `i < window - 1`, else the sum of
`data.slice(i - window + 1, i + 1)` divided by `window`. With `window = 0` the
slice is empty and the quotient is `0 / 0 = NaN`. -/
def movingAverage (data : List ℚ) (window : ℕ) : List (Option ℚ) :=
  (List.range data.length).map fun (i : ℕ) =>
    if (i : ℤ) < (window : ℤ) - 1 then none
    else jsDiv (reduceAdd (jsSlice data ((i : ℤ) - window + 1) ((i : ℤ) + 1))) window

/-- The object returned by `linearRegression`: `slope` and `intercept` (`none`
when not a finite number), `predict` being `Regression.predict`. -/
structure Regression where
  slope : Option ℚ
  intercept : Option ℚ
  deriving DecidableEq, Repr

/-- The closure `predict: (x) => slope * x + intercept`. -/
def Regression.predict (r : Regression) (x : ℚ) : Option ℚ :=
  match r.slope, r.intercept with
  | some s, some c => some (s * x + c)
  | _, _ => none

/-- The function `linearRegression(x, y)`. `sumXY` reads `y[i]` for every index of
`x`, which is `undefined` (making the sum `NaN`) when `y` is shorter than `x`.
On lists of equal length (the only use in `runAnalysis`) the denominator
`n * sumX2 - sumX * sumX` vanishes only when all `x` are equal, and then the
numerator vanishes too: the slope is `0 / 0 = NaN`, and so are the intercept
and every prediction. When `y` is longer than `x` a zero denominator may come
with a non-zero numerator; the slope is then infinite, which the model does
not tell apart from `NaN`. -/
def linearRegression (x y : List ℚ) : Regression :=
  let n : ℚ := x.length
  let sumX := x.foldl (fun a b => a + b) 0
  let sumY := y.foldl (fun a b => a + b) 0
  let sumXY : Option ℚ :=
    if x.length ≤ y.length then
      some ((x.zip y).foldl (fun acc p => acc + p.1 * p.2) 0)
    else none
  let sumX2 := x.foldl (fun acc xi => acc + xi * xi) 0
  let slope := sumXY.bind fun sxy => jsDiv (n * sxy - sumX * sumY) (n * sumX2 - sumX * sumX)
  let intercept := slope.bind fun s => jsDiv (sumY - s * sumX) n
  { slope := slope, intercept := intercept }

/-- The loop of `simpleExponentialSmoothing`: `prev` is `result[i - 1]`, the list
the remaining `data[i], data[i + 1], ...`. -/
def sesLoop (alpha : ℚ) : ℚ → List ℚ → List ℚ
  | _, [] => []
  | prev, x :: xs =>
    let s := alpha * x + (1 - alpha) * prev
    s :: sesLoop alpha s xs

/-- The function `simpleExponentialSmoothing(data, alpha)` (default `alpha` is
`0.3`). On the empty array the result is `[data[0]] = [undefined]`. -/
def simpleExponentialSmoothing (data : List ℚ) (alpha : ℚ) : List (Option ℚ) :=
  match data with
  | [] => [none]
  | x0 :: rest => (x0 :: sesLoop alpha x0 rest).map some

/-- The loop of `holtSmoothing`: returns the pairs `(level[i], trend[i])` for the
remaining positions, from `level[i - 1]` and `trend[i - 1]`. -/
def holtLoop (alpha beta : ℚ) : ℚ → ℚ → List ℚ → List (ℚ × ℚ)
  | _, _, [] => []
  | level, trend, x :: xs =>
    let newLevel := alpha * x + (1 - alpha) * (level + trend)
    let newTrend := beta * (newLevel - level) + (1 - beta) * trend
    (newLevel, newTrend) :: holtLoop alpha beta newLevel newTrend xs

/-- The object returned by `holtSmoothing`. -/
structure HoltResult where
  result : List (Option ℚ)
  level : List (Option ℚ)
  trend : List (Option ℚ)
  deriving DecidableEq, Repr

/-- The function `holtSmoothing(data, alpha, beta)` (defaults `0.3`, `0.1`). With
fewer than two observations `data[1] - data[0]` is `NaN` and the loop does not
run; on the empty array `data[0]` is `undefined`. -/
def holtSmoothing (data : List ℚ) (alpha beta : ℚ) : HoltResult :=
  match data with
  | [] => { result := [none], level := [none], trend := [none] }
  | [x0] => { result := [some x0], level := [some x0], trend := [none] }
  | x0 :: x1 :: rest =>
    let steps := holtLoop alpha beta x0 (x1 - x0) (x1 :: rest)
    { result := (x0 :: steps.map Prod.fst).map some
      level := (x0 :: steps.map Prod.fst).map some
      trend := ((x1 - x0) :: steps.map Prod.snd).map some }

/-- The arrays of a Holt-Winters run: `level`, `trend`, `seasonal` and `result`. -/
structure HWState where
  level : List ℚ
  trend : List ℚ
  seasonal : List ℚ
  result : List ℚ
  deriving DecidableEq, Repr

/-- The arrays of `holtWintersAdditive` before its main loop: `level[0]`,
`trend[0]`, the array `seasonal` (`n` zeros, then the first `season` entries
set to `data[i] - level[0]`) and `result[0]`. -/
def hwAddInit (data : List ℚ) (season : ℕ) : HWState :=
  let n := data.length
  let level0 := data.getD 0 0
  { level := [level0]
    trend := [(data.getD season 0 - data.getD 0 0) / season]
    seasonal := (List.range season).foldl
      (fun s i => s.set i (data.getD i 0 - level0)) (List.replicate n 0)
    result := [data.getD 0 0] }

/-- One iteration `i` of the main loop of `holtWintersAdditive`. The new seasonal
value is written at index `i`, and `result[i]` reads `seasonal[seasonalIdx]`
after that write. -/
def hwAddStep (data : List ℚ) (alpha beta gamma : ℚ) (season : ℕ) (st : HWState) (i : ℕ) :
    HWState :=
  let seasonalIdx := i % season
  let level := alpha * (data.getD i 0 - st.seasonal.getD seasonalIdx 0) +
    (1 - alpha) * (st.level.getD (i - 1) 0 + st.trend.getD (i - 1) 0)
  let trend := beta * (level - st.level.getD (i - 1) 0) + (1 - beta) * st.trend.getD (i - 1) 0
  let seasonal := st.seasonal.set i
    (gamma * (data.getD i 0 - level) + (1 - gamma) * st.seasonal.getD seasonalIdx 0)
  { level := st.level ++ [level]
    trend := st.trend ++ [trend]
    seasonal := seasonal
    result := st.result ++ [level + trend + seasonal.getD seasonalIdx 0] }

/-- The function `holtWintersAdditive(data, alpha, beta, gamma, season)`. For
`1 ≤ season < n` every array access is in bounds and the loop runs over
`i = 1, ..., n - 1`. Outside that range `trend[0]` is `NaN` (`data[season]` is
`undefined`, or the division is `0 / 0`), which makes every later level, trend
and result `NaN`; on the empty array the result is `[data[0]] = [undefined]`. -/
def holtWintersAdditive (data : List ℚ) (alpha beta gamma : ℚ) (season : ℕ) :
    List (Option ℚ) :=
  match data with
  | [] => [none]
  | x0 :: rest =>
    if season = 0 ∨ data.length ≤ season then some x0 :: List.replicate rest.length none
    else ((List.range' 1 (data.length - 1)).foldl
      (hwAddStep data alpha beta gamma season) (hwAddInit data season)).result.map some

/-- The guard `x || 1` on a finite number: `1` when `x` is zero (`JsNum.orOne` is
the guard on every double, `NaN` and the infinities included). -/
def orOne (x : ℚ) : ℚ :=
  if x = 0 then 1 else x

/-- The arrays of `holtWintersMultiplicative` before its main loop, as real
numbers (exact arithmetic): the values that the metrics and the ranking of
`runAnalysis` read. An exact quotient cannot overflow; `hwMultInitD` is the same
code in double arithmetic, where the seed `data[i] / (level[0] || 1)` can be
`Infinity`, and is the one used wherever finiteness is at stake. -/
def hwMultInit (data : List ℚ) (season : ℕ) : HWState :=
  let n := data.length
  let level0 := data.getD 0 0
  { level := [level0]
    trend := [(data.getD season 0 - data.getD 0 0) / season]
    seasonal := (List.range season).foldl
      (fun s i => s.set i (data.getD i 0 / orOne level0)) (List.replicate n 1)
    result := [data.getD 0 0] }

/-- One iteration `i` of the main loop of `holtWintersMultiplicative`, as real
numbers (`hwMultStepD` is the same iteration in double arithmetic). -/
def hwMultStep (data : List ℚ) (alpha beta gamma : ℚ) (season : ℕ) (st : HWState) (i : ℕ) :
    HWState :=
  let seasonalIdx := i % season
  let level := alpha * (data.getD i 0 / orOne (st.seasonal.getD seasonalIdx 0)) +
    (1 - alpha) * (st.level.getD (i - 1) 0 + st.trend.getD (i - 1) 0)
  let trend := beta * (level - st.level.getD (i - 1) 0) + (1 - beta) * st.trend.getD (i - 1) 0
  let seasonal := st.seasonal.set i
    (gamma * (data.getD i 0 / orOne level) + (1 - gamma) * st.seasonal.getD seasonalIdx 0)
  { level := st.level ++ [level]
    trend := st.trend ++ [trend]
    seasonal := seasonal
    result := st.result ++ [(level + trend) * seasonal.getD seasonalIdx 0] }

/-- The function `holtWintersMultiplicative(data, alpha, beta, gamma, season)` as
real numbers, with the same domain remarks as `holtWintersAdditive`
(`holtWintersMultiplicativeD` is the same function in double arithmetic, with
overflow). -/
def holtWintersMultiplicative (data : List ℚ) (alpha beta gamma : ℚ) (season : ℕ) :
    List (Option ℚ) :=
  match data with
  | [] => [none]
  | x0 :: rest =>
    if season = 0 ∨ data.length ≤ season then some x0 :: List.replicate rest.length none
    else ((List.range' 1 (data.length - 1)).foldl
      (hwMultStep data alpha beta gamma season) (hwMultInit data season)).result.map some

/-! ## Metrics evaluator -/

/-- The running sums `n`, `mse`, `mae`, `mape` of `calculateMetrics`. -/
structure MetricSums where
  n : ℕ
  mse : ℚ
  mae : ℚ
  mape : ℚ
  deriving DecidableEq, Repr

/-- The body of the loop of `calculateMetrics` at a position whose prediction `p`
is defined: `a` is `actual[i]`. -/
def metricsStep (acc : MetricSums) (a p : ℚ) : MetricSums :=
  let error := a - p
  { n := acc.n + 1
    mse := acc.mse + error * error
    mae := acc.mae + |error|
    mape := if a ≠ 0 then acc.mape + |error / a| else acc.mape }

/-- The loop of `calculateMetrics` over `i = 0, ..., actual.length - 1`: the two
lists are the remaining `actual[i], ...` and `predicted[i], ...`; a prediction
that is `null`, `NaN` or missing (`undefined`) is skipped. -/
def metricsLoop : List ℚ → List (Option ℚ) → MetricSums → MetricSums
  | [], _, acc => acc
  | a :: as, ps, acc =>
    metricsLoop as ps.tail
      (match ps.head?.join with
       | some p => metricsStep acc a p
       | none => acc)

/-- The object returned by `calculateMetrics` when its fields are numbers. -/
structure Metrics where
  mse : ℚ
  rmse : SqrtVal
  mae : ℚ
  mape : ℚ
  aic : AicVal
  bic : BicVal
  deriving DecidableEq, Repr

/-- The function `calculateMetrics(actual, predicted)`. When no prediction is
counted (`n = 0`) every sum is `0`, every field is built on `0 / 0 = NaN`, and
the model returns `none`. -/
def calculateMetrics (actual : List ℚ) (predicted : List (Option ℚ)) : Option Metrics :=
  let s := metricsLoop actual predicted { n := 0, mse := 0, mae := 0, mape := 0 }
  if s.n = 0 then none
  else some
    { mse := s.mse / s.n
      rmse := { radicand := s.mse / s.n }
      mae := s.mae / s.n
      mape := s.mape / s.n * 100
      aic := { n := s.n, arg := s.mse / s.n }
      bic := { n := s.n, arg := s.mse / s.n } }

/-- The function `calculateResiduals(actual, predicted)`: the differences
`actual[i] - predicted[i]` at the positions whose prediction is defined. -/
def calculateResiduals : List ℚ → List (Option ℚ) → List ℚ
  | [], _ => []
  | a :: as, ps =>
    match ps.head?.join with
    | some p => (a - p) :: calculateResiduals as ps.tail
    | none => calculateResiduals as ps.tail

/-! ## Seasonality detector -/

/-- An entry `{ lag, value }` of the autocorrelogram; `value` is `none` when it is
`NaN`. -/
structure AutocorrEntry where
  lag : ℕ
  value : Option ℚ
  deriving DecidableEq, Repr

/-- The object returned by `detectSeasonality`; `period` is `none` for `null`. -/
structure SeasonalityResult where
  period : Option ℕ
  autocorr : List AutocorrEntry
  deriving DecidableEq, Repr

/-- The inner loop of `detectSeasonality`: the sum over `i = lag, ..., n - 1` of
`(data[i] - mean) * (data[i - lag] - mean)`. -/
def autocovSum (data : List ℚ) (mean : ℚ) (lag : ℕ) : ℚ :=
  (List.range' lag (data.length - lag)).foldl
    (fun sum i => sum + (data.getD i 0 - mean) * (data.getD (i - lag) 0 - mean)) 0

/-- The array `autocorr` of `detectSeasonality`, one entry per lag
`1, ..., min(maxLag, floor(n / 2))`. The divisor `n * variance` is zero only
when every observation equals the mean, and then the sum is zero as well: the
value is `0 / 0 = NaN`. On the empty array the loop does not run, so that the
values of `mean` and `variance` (both `NaN` in the source) are never read. -/
def autocorrelogram (data : List ℚ) (maxLag : ℕ) : List AutocorrEntry :=
  let mean := reduceAdd data / data.length
  let variance := data.foldl (fun a b => a + (b - mean) ^ 2) 0 / data.length
  (List.range' 1 (min maxLag (data.length / 2))).map fun lag =>
    { lag := lag, value := jsDiv (autocovSum data mean lag) (data.length * variance) }

/-- The predicate of the filter of `detectSeasonality` on the entry `ac` at index
`i` of `autocorr`. It reads nothing but the array it is given. The threshold is
the literal `0.3` of the source, that is the double nearest to `3 / 10`
(`5404319552844595 / 2 ^ 54`, slightly below `3 / 10`). -/
def isPeakAt (autocorr : List AutocorrEntry) (i : ℕ) (ac : AutocorrEntry) : Bool :=
  decide (0 < i) && decide ((i : ℤ) < (autocorr.length : ℤ) - 1) &&
    jsGt ac.value ((autocorr.get? (i - 1)).bind AutocorrEntry.value) &&
    jsGt ac.value ((autocorr.get? (i + 1)).bind AutocorrEntry.value) &&
    jsGt ac.value (some (roundDouble (3 / 10)))

/-- The expression `peaks.length > 0 ? peaks[0].lag : null` of
`detectSeasonality`, with `peaks = autocorr.filter(...)`, as a function of the
array `autocorr` alone: the period is read off the stored values, whatever
arithmetic produced them. -/
def selectPeriod (autocorr : List AutocorrEntry) : Option ℕ :=
  ((autocorr.enum.filter fun p => isPeakAt autocorr p.1 p.2).map Prod.snd).head?.map
    AutocorrEntry.lag

/-- The function `detectSeasonality(data, maxLag)` (default `maxLag` is `24`):
the autocorrelogram, with the values of exact arithmetic, and the period selected
from it. -/
def detectSeasonality (data : List ℚ) (maxLag : ℕ) : SeasonalityResult :=
  let autocorr := autocorrelogram data maxLag
  { period := selectPeriod autocorr, autocorr := autocorr }

/-! ## Statistics -/

/-- The exact value of the mean of `((x - mean) / Math.sqrt(variance)) ^ 3`, that
is `thirdMoment / Math.sqrt(variance) ^ 3`, with `thirdMoment` the mean of
`(x - mean) ^ 3`. -/
structure SkewVal where
  thirdMoment : ℚ
  variance : ℚ
  deriving DecidableEq, Repr

/-- The object returned by `calculateStats`; a field is `none` when it is not a
finite number. -/
structure Stats where
  mean : Option ℚ
  variance : Option ℚ
  std : Option SqrtVal
  median : Option ℚ
  min : Option ℚ
  max : Option ℚ
  skewness : Option SkewVal
  kurtosis : Option ℚ
  deriving DecidableEq, Repr

/-- The function `calculateStats(values)`. The mean and the variance are `0 / 0`
on the empty array. The skewness and the kurtosis divide each deviation by
`std`, which is `0 / 0 = NaN` at every position when the variance is zero;
`((x - mean) / std) ^ 4` is the rational `(x - mean) ^ 4 / variance ^ 2`. -/
def calculateStats (values : List ℚ) : Stats :=
  let n := values.length
  let mean := jsDiv (reduceAdd values) n
  let variance := mean.bind fun m => jsDiv (values.foldl (fun a b => a + (b - m) ^ 2) 0) n
  let sorted := values.insertionSort (fun a b => a ≤ b)
  let median : Option ℚ :=
    if n % 2 = 0 then
      if n = 0 then none
      else (sorted.get? (n / 2 - 1)).bind fun lo => (sorted.get? (n / 2)).map fun hi => (lo + hi) / 2
    else sorted.get? (n / 2)
  let moment (k : ℕ) : Option ℚ :=
    mean.bind fun m => jsDiv (values.foldl (fun a b => a + (b - m) ^ k) 0) n
  { mean := mean
    variance := variance
    std := variance.map SqrtVal.mk
    median := median
    min := values.min?
    max := values.max?
    skewness := variance.bind fun v =>
      if v = 0 then none else (moment 3).map fun m3 => { thirdMoment := m3, variance := v }
    kurtosis := variance.bind fun v =>
      if v = 0 then none else (moment 4).map fun m4 => m4 / v ^ 2 - 3 }

/-! ## Analysis orchestrator -/

/-- An element of the state `data`: a parsed row of the imported file. -/
structure Observation where
  date : String
  value : ℚ
  index : ℕ
  deriving DecidableEq, Repr

/-- An element of the array `models` of `runAnalysis`. The metrics are `none`
when `calculateMetrics` counted no prediction (every field `NaN`). -/
structure ModelResult where
  name : String
  metrics : Option Metrics
  predictions : List (Option ℚ)
  type : String
  deriving DecidableEq, Repr

/-- The object passed to `setResults`. -/
structure AnalysisResult where
  stats : Stats
  seasonality : Option ℕ
  seasonalityData : List AutocorrEntry
  models : List ModelResult
  trainSize : ℤ
  bestModel : Option ModelResult
  residuals : List ℚ
  deriving DecidableEq, Repr

/-- The split `trainSize = Math.floor(data.length * trainRatio)`. The state
`trainRatio` holds a double (`parseFloat` of the slider value, or the literal
`0.8`): a ratio given as a real stands for the nearest double. The product is
a double multiplication, rounded before the floor is taken. -/
def trainSizeOf (n : ℕ) (trainRatio : ℚ) : ℤ :=
  ⌊roundDouble ((n : ℚ) * roundDouble trainRatio)⌋

/-- The gate `seasonality && seasonality < trainData.length / 2` of `runAnalysis`:
a period is truthy when it is not `null` and not `0`. -/
def hwGate (seasonality : Option ℕ) (trainLength : ℕ) : Bool :=
  match seasonality with
  | some p => decide (p ≠ 0) && decide ((p : ℚ) < (trainLength : ℚ) / 2)
  | none => false

/-- The array `models` of `runAnalysis` just before it is sorted, in the order of
the `push` calls. The fits on `trainData` alone (`ma`, `ses`, `holt`) are
computed by the source and never read; they are left out. -/
def fittedModels (values : List ℚ) (trainRatio : ℚ) : List ModelResult :=
  let trainSize := trainSizeOf values.length trainRatio
  let trainData := jsSlice values 0 trainSize
  let testData := jsSliceFrom values trainSize
  let seasonality := (detectSeasonality values 24).period
  let maFull := movingAverage values 3
  let x : List ℚ := (List.range trainData.length).map fun (i : ℕ) => (i : ℚ)
  let lr := linearRegression x trainData
  let lrPred := (List.range values.length).map fun (i : ℕ) => lr.predict (i : ℚ)
  let sesFull := simpleExponentialSmoothing values (3 / 10)
  let holtFull := holtSmoothing values (3 / 10) (1 / 10)
  [ { name := "Moyenne Mobile"
      metrics := calculateMetrics testData (jsSliceFrom maFull trainSize)
      predictions := maFull, type := "classique" },
    { name := "Régression Linéaire"
      metrics := calculateMetrics testData (jsSliceFrom lrPred trainSize)
      predictions := lrPred, type := "classique" },
    { name := "Lissage Exp. Simple"
      metrics := calculateMetrics testData (jsSliceFrom sesFull trainSize)
      predictions := sesFull, type := "lissage" },
    { name := "Lissage de Holt"
      metrics := calculateMetrics testData (jsSliceFrom holtFull.result trainSize)
      predictions := holtFull.result, type := "lissage" } ] ++
  (if hwGate seasonality trainData.length then
    let season := seasonality.getD 0
    let hwAdd := holtWintersAdditive values (3 / 10) (1 / 10) (1 / 10) season
    let hwMult := holtWintersMultiplicative values (3 / 10) (1 / 10) (1 / 10) season
    [ { name := "Holt-Winters Additif"
        metrics := calculateMetrics testData (jsSliceFrom hwAdd trainSize)
        predictions := hwAdd, type := "lissage" },
      { name := "Holt-Winters Multiplicatif"
        metrics := calculateMetrics testData (jsSliceFrom hwMult trainSize)
        predictions := hwMult, type := "lissage" } ]
  else [])

/-- The order decided by the comparator `(a, b) => a.metrics.rmse - b.metrics.rmse`:
`a` may stay before `b` when the difference is not positive. Mean squared
errors are non-negative, so the sign of the difference of the two square roots
is the sign of the difference of the radicands. A difference that is `NaN`
counts as `0` for `Array.prototype.sort`. -/
def rmseLe (a b : ModelResult) : Prop :=
  match a.metrics, b.metrics with
  | some ma, some mb => ma.rmse.radicand ≤ mb.rmse.radicand
  | _, _ => True

instance rmseLeDecidable : DecidableRel rmseLe := fun a b => by
  unfold rmseLe
  cases a.metrics <;> cases b.metrics <;> infer_instance

/-- The call `models.sort((a, b) => a.metrics.rmse - b.metrics.rmse)`: a stable
sort. With a consistent comparator (no `NaN`) every stable sort returns the
same array; this one inserts each element before the first one it may
precede. -/
def sortModels (models : List ModelResult) : List ModelResult :=
  models.insertionSort rmseLe

/-- The body of the timer callback of `runAnalysis`, on the values of the `data`
and `trainRatio` it closed over: the argument of `setResults`. -/
def analyse (values : List ℚ) (trainRatio : ℚ) : AnalysisResult :=
  let seasonalityResult := detectSeasonality values 24
  let models := sortModels (fittedModels values trainRatio)
  { stats := calculateStats values
    seasonality := seasonalityResult.period
    seasonalityData := seasonalityResult.autocorr
    models := models
    trainSize := trainSizeOf values.length trainRatio
    bestModel := models.head?
    residuals := calculateResiduals values ((models.head?.map ModelResult.predictions).getD []) }

/-- The kinds of lines written by `addLog` (the timestamp and the rendering of the
numbers are left out): the error line of the length guard, the opening banner
with the number of observations, the progress and ranking lines (each derived
from the result being assembled), and the closing banner. -/
inductive LogEvent where
  | insufficientData
  | analysisStarted (observations : ℕ)
  | analysisReport (result : AnalysisResult)
  | analysisFinished
  deriving DecidableEq, Repr

/-- A callback registered by `setTimeout` in `runAnalysis`, with the `data` and
`trainRatio` of the render it closed over. -/
structure PendingRun where
  data : List Observation
  trainRatio : ℚ
  deriving DecidableEq, Repr

/-- The state of the component `App` read or written by `runAnalysis`, and the
timer queue. -/
structure AppState where
  data : List Observation
  results : Option AnalysisResult
  log : List LogEvent
  loading : Bool
  trainRatio : ℚ
  timers : List PendingRun
  deriving DecidableEq, Repr

/-- The synchronous part of `runAnalysis`: the length guard, then
`setLoading(true)`, the opening log lines and the registration of the timer. -/
def runAnalysis (s : AppState) : AppState :=
  if s.data.length < 10 then
    { s with log := s.log ++ [LogEvent.insufficientData] }
  else
    { s with
      loading := true
      log := s.log ++ [LogEvent.analysisStarted s.data.length]
      timers := s.timers ++ [{ data := s.data, trainRatio := s.trainRatio }] }

/-- The firing of the oldest pending timer callback of `runAnalysis`. -/
def fireTimer (s : AppState) : AppState :=
  match s.timers with
  | [] => s
  | run :: rest =>
    let result := analyse (run.data.map Observation.value) run.trainRatio
    { s with
      results := some result
      loading := false
      log := s.log ++ [LogEvent.analysisReport result, LogEvent.analysisFinished]
      timers := rest }

/-! ## Double arithmetic

The multiplicative Holt-Winters model once more, with the arithmetic of the
program: every operation rounds to the nearest double and can overflow to an
infinity. -/

/-- A JavaScript number: a finite double (held as the rational it equals), an
infinity or `NaN`. The two zeros are not told apart; they differ only as
divisors, and the program never divides by a zero in the functions modelled
with this type. -/
inductive JsNum where
  | fin (q : ℚ)
  | posInf
  | negInf
  | nan
  deriving DecidableEq, Repr

/-- The largest finite double, `(2 ^ 53 - 1) * 2 ^ 971`. -/
def maxDouble : ℚ :=
  (2 ^ 53 - 1) * 2 ^ 971

/-- The double nearest to a real number: an infinity when the rounded value is
beyond the largest finite double. -/
def JsNum.ofReal (q : ℚ) : JsNum :=
  if maxDouble < roundDouble q then JsNum.posInf
  else if roundDouble q < -maxDouble then JsNum.negInf
  else JsNum.fin (roundDouble q)

/-- The infinity of the sign of a non-zero rational. -/
def JsNum.infOfSign (q : ℚ) : JsNum :=
  if 0 < q then JsNum.posInf else JsNum.negInf

/-- The negation `-a`. -/
def JsNum.neg : JsNum → JsNum
  | JsNum.fin a => JsNum.fin (-a)
  | JsNum.posInf => JsNum.negInf
  | JsNum.negInf => JsNum.posInf
  | JsNum.nan => JsNum.nan

/-- The sum `a + b`. -/
def JsNum.add : JsNum → JsNum → JsNum
  | JsNum.fin a, JsNum.fin b => JsNum.ofReal (a + b)
  | JsNum.nan, _ => JsNum.nan
  | _, JsNum.nan => JsNum.nan
  | JsNum.posInf, JsNum.negInf => JsNum.nan
  | JsNum.negInf, JsNum.posInf => JsNum.nan
  | JsNum.posInf, _ => JsNum.posInf
  | _, JsNum.posInf => JsNum.posInf
  | JsNum.negInf, _ => JsNum.negInf
  | _, JsNum.negInf => JsNum.negInf

/-- The difference `a - b`. -/
def JsNum.sub (a b : JsNum) : JsNum :=
  JsNum.add a (JsNum.neg b)

/-- The product `a * b`. -/
def JsNum.mul : JsNum → JsNum → JsNum
  | JsNum.fin a, JsNum.fin b => JsNum.ofReal (a * b)
  | JsNum.nan, _ => JsNum.nan
  | _, JsNum.nan => JsNum.nan
  | JsNum.fin a, JsNum.posInf => if a = 0 then JsNum.nan else JsNum.infOfSign a
  | JsNum.fin a, JsNum.negInf => if a = 0 then JsNum.nan else JsNum.infOfSign (-a)
  | JsNum.posInf, JsNum.fin b => if b = 0 then JsNum.nan else JsNum.infOfSign b
  | JsNum.negInf, JsNum.fin b => if b = 0 then JsNum.nan else JsNum.infOfSign (-b)
  | JsNum.posInf, JsNum.posInf => JsNum.posInf
  | JsNum.posInf, JsNum.negInf => JsNum.negInf
  | JsNum.negInf, JsNum.posInf => JsNum.negInf
  | JsNum.negInf, JsNum.negInf => JsNum.posInf

/-- The quotient `a / b`. A finite non-zero number over zero is an infinity, whose
sign is here that of the dividend (the zero taken as `+0`). -/
def JsNum.div : JsNum → JsNum → JsNum
  | JsNum.fin a, JsNum.fin b =>
    if b = 0 then (if a = 0 then JsNum.nan else JsNum.infOfSign a) else JsNum.ofReal (a / b)
  | JsNum.nan, _ => JsNum.nan
  | _, JsNum.nan => JsNum.nan
  | JsNum.fin _, JsNum.posInf => JsNum.fin 0
  | JsNum.fin _, JsNum.negInf => JsNum.fin 0
  | JsNum.posInf, JsNum.fin b => if 0 ≤ b then JsNum.posInf else JsNum.negInf
  | JsNum.negInf, JsNum.fin b => if 0 ≤ b then JsNum.negInf else JsNum.posInf
  | JsNum.posInf, JsNum.posInf => JsNum.nan
  | JsNum.posInf, JsNum.negInf => JsNum.nan
  | JsNum.negInf, JsNum.posInf => JsNum.nan
  | JsNum.negInf, JsNum.negInf => JsNum.nan

/-- The guard `x || 1`: `1` when `x` is zero or `NaN`, else `x` (an infinity is
truthy). -/
def JsNum.orOne : JsNum → JsNum
  | JsNum.fin q => if q = 0 then JsNum.fin 1 else JsNum.fin q
  | JsNum.nan => JsNum.fin 1
  | JsNum.posInf => JsNum.posInf
  | JsNum.negInf => JsNum.negInf

/-- The read `data[i]` of an array of numbers, as an operand: the element as a
double, `NaN` for the `undefined` beyond the end. -/
def readNum (data : List ℚ) (i : ℕ) : JsNum :=
  match data.get? i with
  | some x => JsNum.ofReal x
  | none => JsNum.nan

/-- The arrays of a Holt-Winters run in double arithmetic. -/
structure HWStateD where
  level : List JsNum
  trend : List JsNum
  seasonal : List JsNum
  result : List JsNum
  deriving DecidableEq, Repr

/-- The arrays of `holtWintersMultiplicative` before its main loop, in double
arithmetic. -/
def hwMultInitD (data : List ℚ) (season : ℕ) : HWStateD :=
  let n := data.length
  let level0 := readNum data 0
  { level := [level0]
    trend := [JsNum.div (JsNum.sub (readNum data season) (readNum data 0))
      (JsNum.ofReal season)]
    seasonal := (List.range season).foldl
      (fun s i => s.set i (JsNum.div (readNum data i) (JsNum.orOne level0)))
      (List.replicate n (JsNum.fin 1))
    result := [readNum data 0] }

/-- One iteration `i` of the main loop of `holtWintersMultiplicative`, in double
arithmetic. -/
def hwMultStepD (data : List ℚ) (alpha beta gamma : ℚ) (season : ℕ) (st : HWStateD)
    (i : ℕ) : HWStateD :=
  let seasonalIdx := i % season
  let level := JsNum.add
    (JsNum.mul (JsNum.ofReal alpha)
      (JsNum.div (readNum data i) (JsNum.orOne (st.seasonal.getD seasonalIdx JsNum.nan))))
    (JsNum.mul (JsNum.sub (JsNum.fin 1) (JsNum.ofReal alpha))
      (JsNum.add (st.level.getD (i - 1) JsNum.nan) (st.trend.getD (i - 1) JsNum.nan)))
  let trend := JsNum.add
    (JsNum.mul (JsNum.ofReal beta) (JsNum.sub level (st.level.getD (i - 1) JsNum.nan)))
    (JsNum.mul (JsNum.sub (JsNum.fin 1) (JsNum.ofReal beta)) (st.trend.getD (i - 1) JsNum.nan))
  let seasonal := st.seasonal.set i
    (JsNum.add
      (JsNum.mul (JsNum.ofReal gamma) (JsNum.div (readNum data i) (JsNum.orOne level)))
      (JsNum.mul (JsNum.sub (JsNum.fin 1) (JsNum.ofReal gamma))
        (st.seasonal.getD seasonalIdx JsNum.nan)))
  { level := st.level ++ [level]
    trend := st.trend ++ [trend]
    seasonal := seasonal
    result := st.result ++
      [JsNum.mul (JsNum.add level trend) (seasonal.getD seasonalIdx JsNum.nan)] }

/-- The arrays of `holtWintersMultiplicative` after its main loop, in double
arithmetic. -/
def hwMultRunD (data : List ℚ) (alpha beta gamma : ℚ) (season : ℕ) : HWStateD :=
  (List.range' 1 (data.length - 1)).foldl
    (hwMultStepD data alpha beta gamma season) (hwMultInitD data season)

/-- The function `holtWintersMultiplicative(data, alpha, beta, gamma, season)` in
double arithmetic: the elements of `data` and the three factors are read as
doubles. Outside `1 ≤ season < n` the result is `data[0]` followed by `NaN`
(`trend[0]` is `NaN` there), and `[undefined]` on the empty array. -/
def holtWintersMultiplicativeD (data : List ℚ) (alpha beta gamma : ℚ) (season : ℕ) :
    List JsNum :=
  match data with
  | [] => [JsNum.nan]
  | x0 :: rest =>
    if season = 0 ∨ data.length ≤ season then
      JsNum.ofReal x0 :: List.replicate rest.length JsNum.nan
    else (hwMultRunD data alpha beta gamma season).result

/-- The quotient `a / b` with the division checked: `none` when the divisor is
zero. -/
def JsNum.divChecked (a b : JsNum) : Option JsNum :=
  if b = JsNum.fin 0 then none else some (JsNum.div a b)

/-- The arrays of `holtWintersMultiplicative` before its main loop, in double
arithmetic, with every division checked: `none` as soon as a divisor is
zero. -/
def hwMultInitCheckedD (data : List ℚ) (season : ℕ) : Option HWStateD :=
  let n := data.length
  let level0 := readNum data 0
  (JsNum.divChecked (JsNum.sub (readNum data season) (readNum data 0))
      (JsNum.ofReal season)).bind fun trend0 =>
    ((List.range season).foldl
      (fun s i => s.bind fun arr =>
        (JsNum.divChecked (readNum data i) (JsNum.orOne level0)).map fun q => arr.set i q)
      (some (List.replicate n (JsNum.fin 1)))).map fun seasonal =>
        { level := [level0], trend := [trend0], seasonal := seasonal,
          result := [readNum data 0] }

/-- One iteration `i` of the main loop of `holtWintersMultiplicative`, in double
arithmetic, with every division checked: `none` as soon as a divisor is
zero. -/
def hwMultStepCheckedD (data : List ℚ) (alpha beta gamma : ℚ) (season : ℕ) (st : HWStateD)
    (i : ℕ) : Option HWStateD :=
  let seasonalIdx := i % season
  (JsNum.divChecked (readNum data i)
      (JsNum.orOne (st.seasonal.getD seasonalIdx JsNum.nan))).bind fun q1 =>
    let level := JsNum.add (JsNum.mul (JsNum.ofReal alpha) q1)
      (JsNum.mul (JsNum.sub (JsNum.fin 1) (JsNum.ofReal alpha))
        (JsNum.add (st.level.getD (i - 1) JsNum.nan) (st.trend.getD (i - 1) JsNum.nan)))
    let trend := JsNum.add
      (JsNum.mul (JsNum.ofReal beta) (JsNum.sub level (st.level.getD (i - 1) JsNum.nan)))
      (JsNum.mul (JsNum.sub (JsNum.fin 1) (JsNum.ofReal beta))
        (st.trend.getD (i - 1) JsNum.nan))
    (JsNum.divChecked (readNum data i) (JsNum.orOne level)).map fun q2 =>
      let seasonal := st.seasonal.set i
        (JsNum.add (JsNum.mul (JsNum.ofReal gamma) q2)
          (JsNum.mul (JsNum.sub (JsNum.fin 1) (JsNum.ofReal gamma))
            (st.seasonal.getD seasonalIdx JsNum.nan)))
      { level := st.level ++ [level]
        trend := st.trend ++ [trend]
        seasonal := seasonal
        result := st.result ++
          [JsNum.mul (JsNum.add level trend) (seasonal.getD seasonalIdx JsNum.nan)] }

/-- The arrays of `holtWintersMultiplicative` after its main loop, in double
arithmetic, with every division checked. -/
def hwMultRunCheckedD (data : List ℚ) (alpha beta gamma : ℚ) (season : ℕ) :
    Option HWStateD :=
  (List.range' 1 (data.length - 1)).foldl
    (fun s i => s.bind fun st => hwMultStepCheckedD data alpha beta gamma season st i)
    (hwMultInitCheckedD data season)

/-- A series of five doubles of very large and very small magnitude. -/
def overflowSeries : List ℚ :=
  [pow2 (-600), pow2 600, pow2 (-600), pow2 600, pow2 (-600)]

/-! ## Notions used to state the properties -/

/-- The positions counted by `calculateMetrics`, as pairs `(actual[i], predicted[i])`
in order: those whose prediction is defined. -/
def validPairs (actual : List ℚ) (predicted : List (Option ℚ)) : List (ℚ × ℚ) :=
  (actual.zip predicted).filterMap fun ap => ap.2.map fun p => (ap.1, p)

/-- The pairs `(actual[i], predicted[i])` left once every position with
`actual[i] = 0` is removed. -/
def dropZeroActual (actual : List ℚ) (predicted : List (Option ℚ)) :
    List (ℚ × Option ℚ) :=
  (actual.zip predicted).filter fun ap => decide (ap.1 ≠ 0)

/-- The sample mean of a series. -/
def seriesMean (data : List ℚ) : ℚ :=
  data.sum / data.length

/-- The population variance of a series (divisor `n`). -/
def seriesVariance (data : List ℚ) : ℚ :=
  (data.map fun x => (x - seriesMean data) ^ 2).sum / data.length

/-- The autocorrelation of a series at a lag, as the specification states it: the
sum over `i` from `lag` to `n - 1` of `(x_i - mean) * (x_{i - lag} - mean)`,
divided by `n * variance`; not a number when that divisor is zero. -/
def acfSpec (data : List ℚ) (lag : ℕ) : Option ℚ :=
  if (data.length : ℚ) * seriesVariance data = 0 then none
  else some ((∑ i in Finset.Ico lag data.length,
    (data.getD i 0 - seriesMean data) * (data.getD (i - lag) 0 - seriesMean data)) /
      ((data.length : ℚ) * seriesVariance data))

/-- A candidate period under exact arithmetic: a lag whose two neighbouring lags
are both among the computed lags `1, ..., min(maxLag, floor(n / 2))`, whose exact
autocorrelation is strictly greater than the exact values at both neighbours and
strictly greater than the double `0.3`. -/
def IsCandidatePeriod (data : List ℚ) (maxLag p : ℕ) : Prop :=
  2 ≤ p ∧ p + 1 ≤ min maxLag (data.length / 2) ∧
    ∃ v l r, acfSpec data p = some v ∧ acfSpec data (p - 1) = some l ∧
      acfSpec data (p + 1) = some r ∧ l < v ∧ r < v ∧ roundDouble (3 / 10) < v

/-- A peak of an autocorrelogram, as the specification states it, read off the
entries of the array: `p` is the lag of an entry of `autocorr`, the lags `p - 1`
and `p + 1` are lags of entries as well, the three values are numbers, and the
value at `p` is strictly greater than both neighbouring values and strictly
greater than the constant `0.3` of the source (a double). -/
def IsPeakLag (autocorr : List AutocorrEntry) (p : ℕ) : Prop :=
  ∃ e l r, e ∈ autocorr ∧ l ∈ autocorr ∧ r ∈ autocorr ∧
    e.lag = p ∧ l.lag + 1 = p ∧ r.lag = p + 1 ∧
    ∃ v a b, e.value = some v ∧ l.value = some a ∧ r.value = some b ∧
      a < v ∧ b < v ∧ roundDouble (3 / 10) < v

/-- The gating rule of the Holt-Winters models, as the specification states it: a
seasonal period was detected and `period < trainSize / 2`. -/
def HoltWintersGate (result : AnalysisResult) : Prop :=
  ∃ p, result.seasonality = some p ∧ (p : ℚ) < (result.trainSize : ℚ) / 2

/-- The order "RMSE of `a` is at most RMSE of `b`" on two model results whose
metrics are numbers, read through the real square root. -/
def RmseLeReal (a b : ModelResult) : Prop :=
  ∀ ma mb, a.metrics = some ma → b.metrics = some mb →
    Real.sqrt (ma.rmse.radicand : ℝ) ≤ Real.sqrt (mb.rmse.radicand : ℝ)

/-- The series of the end-to-end scenario of the specification: twelve points
without strong seasonality. -/
def scenarioSeries : List ℚ :=
  [10, 12, 13, 12, 15, 16, 14, 17, 19, 18, 20, 22]

/-- A series of twenty-four points with the exact period `3`. -/
def seasonalSeries : List ℚ :=
  [1, 2, 5, 1, 2, 5, 1, 2, 5, 1, 2, 5, 1, 2, 5, 1, 2, 5, 1, 2, 5, 1, 2, 5]

/-- A state of the application holding nine observations and no result. -/
def shortState : AppState :=
  { data := (List.range 9).map fun (i : ℕ) => { date := "", value := (i : ℚ), index := i }
    results := none
    log := []
    loading := false
    trainRatio := 4 / 5
    timers := [] }

/-- A state of the application holding the twelve observations of
`scenarioSeries` and no result. -/
def scenarioState : AppState :=
  { data := scenarioSeries.enum.map fun p => { date := "", value := p.2, index := p.1 }
    results := none
    log := []
    loading := false
    trainRatio := 4 / 5
    timers := [] }

/-- The arrays of `holtWintersAdditive` after the iterations `i = 1, ..., k` of its
main loop. -/
def hwAddStateAfter (data : List ℚ) (alpha beta gamma : ℚ) (season k : ℕ) : HWState :=
  (List.range' 1 k).foldl (hwAddStep data alpha beta gamma season) (hwAddInit data season)

/-- A series of seven points without exact period, used with `season = 2`. -/
def driftSeries : List ℚ :=
  [1, 2, 4, 3, 6, 5, 8]

/-! ## Rounding to binary64 -/

theorem pow2_eq_zpow (z : ℤ) : pow2 z = (2 : ℚ) ^ z := by
  unfold pow2
  split
  · rename_i h
    have hz : z = ((z.toNat : ℕ) : ℤ) := (Int.toNat_of_nonneg h).symm
    conv_rhs => rw [hz]
    rw [zpow_natCast]
    push_cast
    rfl
  · rename_i h
    have hneg : 0 ≤ -z := by omega
    have hz : z = -(((-z).toNat : ℕ) : ℤ) := by
      rw [Int.toNat_of_nonneg hneg]
      ring
    conv_rhs => rw [hz]
    rw [zpow_neg, zpow_natCast]
    push_cast
    rw [one_div]

theorem pow2_pos (z : ℤ) : 0 < pow2 z := by
  rw [pow2_eq_zpow]
  positivity

theorem log2Fuel_eq_log (fuel n : ℕ) (h : n ≤ fuel) : log2Fuel fuel n = Nat.log 2 n := by
  induction fuel generalizing n with
  | zero =>
    have : n = 0 := by omega
    subst this
    simp [log2Fuel]
  | succ fuel ih =>
    unfold log2Fuel
    split
    · rename_i hlt
      rw [Nat.log_of_lt hlt]
    · rename_i hge
      have h2 : 2 ≤ n := by omega
      rw [ih (n / 2) (by omega), Nat.log_of_one_lt_of_le (by norm_num) h2]

theorem log2Nat_bounds (n : ℕ) (hn : n ≠ 0) :
    2 ^ log2Fuel n n ≤ n ∧ n < 2 ^ (log2Fuel n n + 1) := by
  rw [log2Fuel_eq_log n n le_rfl]
  exact ⟨Nat.pow_log_le_self 2 hn, Nat.lt_pow_succ_log_self (by norm_num) n⟩

theorem pow2_log2Floor_le (q : ℚ) (hq : 0 < q) : pow2 (log2Floor q) ≤ q := by
  unfold log2Floor
  simp only
  split
  · assumption
  · have hnum : 0 < q.num := Rat.num_pos.2 hq
    have hna : q.num.natAbs ≠ 0 := by
      intro h0
      have := Int.natAbs_eq_zero.1 h0
      omega
    obtain ⟨hA, _⟩ := log2Nat_bounds q.num.natAbs hna
    obtain ⟨_, hB⟩ := log2Nat_bounds q.den q.den_nz
    set A := log2Fuel q.num.natAbs q.num.natAbs
    set B := log2Fuel q.den q.den
    rw [pow2_eq_zpow]
    have hden : (0 : ℚ) < q.den := by exact_mod_cast q.den_pos
    have hqeq : q = (q.num.natAbs : ℚ) / q.den := by
      have hcast : ((q.num.natAbs : ℕ) : ℚ) = (q.num : ℚ) := by
        rw [Nat.cast_natAbs, abs_of_pos hnum]
      rw [hcast]
      exact (Rat.num_div_den q).symm
    have hA' : (2 : ℚ) ^ A ≤ (q.num.natAbs : ℚ) := by exact_mod_cast hA
    have hB' : (q.den : ℚ) < 2 ^ (B + 1) := by exact_mod_cast hB
    have hsplit : (2 : ℚ) ^ ((A : ℤ) - (B : ℤ) - 1) = 2 ^ A / 2 ^ (B + 1) := by
      rw [show (A : ℤ) - (B : ℤ) - 1 = (A : ℤ) - ((B + 1 : ℕ) : ℤ) by push_cast; ring,
        zpow_sub₀ (by norm_num), zpow_natCast, zpow_natCast]
    rw [hsplit]
    conv_rhs => rw [hqeq]
    have hpB : (0 : ℚ) < 2 ^ (B + 1) := by positivity
    rw [div_le_div_iff₀ hpB hden]
    have : (2 : ℚ) ^ A * q.den ≤ q.num.natAbs * 2 ^ (B + 1) := by
      have h1 : (2 : ℚ) ^ A * q.den ≤ (q.num.natAbs : ℚ) * q.den :=
        mul_le_mul_of_nonneg_right hA' hden.le
      have h2 : (q.num.natAbs : ℚ) * q.den ≤ q.num.natAbs * 2 ^ (B + 1) :=
        mul_le_mul_of_nonneg_left hB'.le (by positivity)
      exact h1.trans h2
    exact this

theorem roundHalfEven_sub_abs (x : ℚ) : |(roundHalfEven x : ℚ) - x| ≤ 1 / 2 := by
  have hfl : (⌊x⌋ : ℚ) ≤ x := Int.floor_le x
  have hlt : x < ⌊x⌋ + 1 := Int.lt_floor_add_one x
  unfold roundHalfEven
  split
  · rw [abs_le]; constructor <;> linarith
  · split
    · rw [abs_le]; constructor <;> (push_cast; linarith)
    · rename_i h1 h2
      have he : x - ⌊x⌋ = 1 / 2 := le_antisymm (not_lt.1 h2) (not_lt.1 h1)
      split
      · rw [abs_le]; constructor <;> linarith
      · rw [abs_le]; constructor <;> (push_cast; linarith)

theorem roundHalfEven_nonneg (x : ℚ) (hx : 0 ≤ x) : 0 ≤ roundHalfEven x := by
  have hfl : 0 ≤ ⌊x⌋ := Int.floor_nonneg.2 hx
  unfold roundHalfEven
  split
  · exact hfl
  · split
    · omega
    · split
      · exact hfl
      · omega

theorem roundDouble_nonneg (q : ℚ) (hq : 0 ≤ q) : 0 ≤ roundDouble q := by
  unfold roundDouble
  split
  · exact le_rfl
  · simp only
    have hnot : ¬ q < 0 := not_lt.2 hq
    rw [if_neg hnot, one_mul]
    apply mul_nonneg
    · have : 0 ≤ roundHalfEven (|q| / pow2 (max (log2Floor |q|) (-1022) - 52)) :=
        roundHalfEven_nonneg _ (div_nonneg (abs_nonneg q) (pow2_pos _).le)
      exact_mod_cast this
    · exact (pow2_pos _).le

/-- The relative error of the rounding of a positive normal number is at most
`2 ^ (-53)`. -/
theorem roundDouble_sub_abs (q : ℚ) (hq : pow2 (-1022) ≤ q) :
    |roundDouble q - q| ≤ q / 2 ^ 53 := by
  have hpos : 0 < q := lt_of_lt_of_le (pow2_pos _) hq
  have hne : q ≠ 0 := ne_of_gt hpos
  have hnot : ¬ q < 0 := not_lt.2 hpos.le
  have habs : |q| = q := abs_of_pos hpos
  unfold roundDouble
  simp only [if_neg hne, if_neg hnot, one_mul, habs]
  set e := max (log2Floor q) (-1022) with he
  have hulp : 0 < pow2 (e - 52) := pow2_pos _
  have hround := roundHalfEven_sub_abs (q / pow2 (e - 52))
  have hrw : (roundHalfEven (q / pow2 (e - 52)) : ℚ) * pow2 (e - 52) - q =
      ((roundHalfEven (q / pow2 (e - 52)) : ℚ) - q / pow2 (e - 52)) * pow2 (e - 52) := by
    field_simp
  rw [hrw, abs_mul, abs_of_pos hulp]
  have hle : pow2 e ≤ q := by
    rcases max_cases (log2Floor q) (-1022) with ⟨h, _⟩ | ⟨h, _⟩
    · rw [he, h]
      exact pow2_log2Floor_le q hpos
    · rw [he, h]
      exact hq
  have hulp_eq : pow2 (e - 52) = pow2 e / 2 ^ 52 := by
    rw [pow2_eq_zpow, pow2_eq_zpow, zpow_sub₀ (by norm_num)]
    norm_num
  calc |(roundHalfEven (q / pow2 (e - 52)) : ℚ) - q / pow2 (e - 52)| * pow2 (e - 52)
      ≤ 1 / 2 * pow2 (e - 52) := mul_le_mul_of_nonneg_right hround hulp.le
    _ = pow2 e / 2 ^ 53 := by rw [hulp_eq]; ring
    _ ≤ q / 2 ^ 53 := by
        apply div_le_div_of_nonneg_right hle
        positivity

theorem pow2_min_le_half : pow2 (-1022) ≤ 1 / 2 := by
  rw [pow2_eq_zpow, show (-1022 : ℤ) = -((1022 : ℕ) : ℤ) by norm_num, zpow_neg, zpow_natCast,
    one_div]
  apply inv_anti₀ (by norm_num)
  calc (2 : ℚ) = 2 ^ 1 := by norm_num
    _ ≤ 2 ^ 1022 := pow_le_pow_right₀ (by norm_num) (by norm_num)

theorem trainSizeOf_nonneg (n : ℕ) (trainRatio : ℚ) (hr : 0 ≤ trainRatio) :
    0 ≤ trainSizeOf n trainRatio :=
  Int.floor_nonneg.2
    (roundDouble_nonneg _ (mul_nonneg (Nat.cast_nonneg n) (roundDouble_nonneg _ hr)))

/-- The double product `data.length * trainRatio` is within a relative error of
`2 ^ (-51)` of the exact product of the length and the ratio. -/
theorem roundDouble_product (n : ℕ) (trainRatio : ℚ) (hn : 10 ≤ n)
    (h1 : 1 / 2 ≤ trainRatio) :
    (n : ℚ) * trainRatio * (1 - 1 / 2 ^ 51) ≤
        roundDouble ((n : ℚ) * roundDouble trainRatio) ∧
      roundDouble ((n : ℚ) * roundDouble trainRatio) ≤
        (n : ℚ) * trainRatio * (1 + 1 / 2 ^ 51) := by
  have hn' : (10 : ℚ) ≤ n := by exact_mod_cast hn
  have hmin := pow2_min_le_half
  have hr := roundDouble_sub_abs trainRatio (by linarith)
  obtain ⟨hr1, hr2⟩ := abs_le.1 hr
  have hy : (5 : ℚ) ≤ n * trainRatio := by nlinarith
  have hx1 : (n : ℚ) * trainRatio - n * trainRatio / 2 ^ 53 ≤ n * roundDouble trainRatio := by
    have := mul_le_mul_of_nonneg_left hr1 (by positivity : (0 : ℚ) ≤ n)
    have e : (n : ℚ) * -(trainRatio / 2 ^ 53) = -(n * trainRatio / 2 ^ 53) := by ring
    rw [e] at this
    linarith
  have hx2 : (n : ℚ) * roundDouble trainRatio ≤ n * trainRatio + n * trainRatio / 2 ^ 53 := by
    have := mul_le_mul_of_nonneg_left hr2 (by positivity : (0 : ℚ) ≤ n)
    have e : (n : ℚ) * (trainRatio / 2 ^ 53) = n * trainRatio / 2 ^ 53 := by ring
    rw [e] at this
    linarith
  have hxpos : pow2 (-1022) ≤ (n : ℚ) * roundDouble trainRatio := by
    norm_num at hx1 ⊢
    linarith
  have hf := roundDouble_sub_abs ((n : ℚ) * roundDouble trainRatio) hxpos
  obtain ⟨hf1, hf2⟩ := abs_le.1 hf
  constructor
  · norm_num at hx1 hx2 hf1 hf2 ⊢
    linarith
  · norm_num at hx1 hx2 hf1 hf2 ⊢
    linarith

/-! ## Moving average -/

theorem foldl_add_eq (f : ℚ → ℚ) (xs : List ℚ) (a : ℚ) :
    xs.foldl (fun acc b => acc + f b) a = a + (xs.map f).sum := by
  induction xs generalizing a with
  | nil => simp
  | cons x xs ih => simp [ih, add_assoc]

theorem reduceAdd_eq_sum (xs : List ℚ) : reduceAdd xs = xs.sum := by
  have := foldl_add_eq id xs 0
  simpa [reduceAdd] using this

theorem sum_take_drop (l : List ℚ) (s w : ℕ) (h : s + w ≤ l.length) :
    ((l.take (s + w)).drop s).sum = ∑ j in Finset.range w, l.getD (s + j) 0 := by
  induction w with
  | zero =>
    have : (l.take s).drop s = [] := List.drop_eq_nil_of_le (by simp)
    simp [this]
  | succ w ih =>
    have hw : s + w < l.length := by omega
    rw [Finset.sum_range_succ, ← ih (by omega)]
    have : (l.take (s + (w + 1))).drop s = (l.take (s + w)).drop s ++ [l.getD (s + w) 0] := by
      rw [← add_assoc, List.take_succ, List.drop_append_of_le_length (by simp; omega)]
      simp [List.getD, List.getElem?_eq_getElem hw]
    rw [this]; simp

/-- Claim C1. For every sequence `data` and window `w ≥ 1`, `movingAverage data w`
has the length of `data`; every position `i < w - 1` is `null`, and every
position `i ≥ w - 1` holds the arithmetic mean of the `w` trailing values
`data[i - w + 1], ..., data[i]`. -/
theorem movingAverage_spec (data : List ℚ) (w : ℕ) (hw : 1 ≤ w) :
    (movingAverage data w).length = data.length ∧
    ∀ i, i < data.length →
      (i + 1 < w → (movingAverage data w).get? i = some none) ∧
      (w ≤ i + 1 → (movingAverage data w).get? i =
        some (some ((∑ j in Finset.range w, data.getD (i + 1 - w + j) 0) / w))) := by
  refine ⟨by simp [movingAverage], fun i hi => ⟨fun h => ?_, fun h => ?_⟩⟩
  · have : (i : ℤ) < (w : ℤ) - 1 := by omega
    simp [movingAverage, List.getElem?_map, List.getElem?_range hi, this]
  · have h1 : ¬ (i : ℤ) < (w : ℤ) - 1 := by omega
    have hw0 : (w : ℚ) ≠ 0 := by exact_mod_cast (by omega : w ≠ 0)
    have hs : sliceIndex data.length ((i : ℤ) - w + 1) = i + 1 - w := by
      have : ¬ ((i : ℤ) - w + 1 < 0) := by omega
      simp only [sliceIndex, if_neg this]
      omega
    have he : sliceIndex data.length ((i : ℤ) + 1) = i + 1 := by
      have : ¬ ((i : ℤ) + 1 < 0) := by omega
      simp only [sliceIndex, if_neg this]
      omega
    have hsum := sum_take_drop data (i + 1 - w) w (by omega)
    have hiw : i + 1 - w + w = i + 1 := by omega
    rw [hiw] at hsum
    simp [movingAverage, List.getElem?_map, List.getElem?_range hi, h1, jsDiv, hw0, jsSlice,
      hs, he, reduceAdd_eq_sum, hsum]

theorem movingAverage_spec_witness :
    1 ≤ 3 ∧ (movingAverage [1, 2, 3, 4, 5] 3).length = ([1, 2, 3, 4, 5] : List ℚ).length ∧
    ∀ i, i < ([1, 2, 3, 4, 5] : List ℚ).length →
      (i + 1 < 3 → (movingAverage [1, 2, 3, 4, 5] 3).get? i = some none) ∧
      (3 ≤ i + 1 → (movingAverage [1, 2, 3, 4, 5] 3).get? i =
        some (some ((∑ j in Finset.range 3, ([1, 2, 3, 4, 5] : List ℚ).getD (i + 1 - 3 + j) 0)
          / (3 : ℕ)))) :=
  ⟨by decide, movingAverage_spec [1, 2, 3, 4, 5] 3 (by decide)⟩

/-! ## Metrics evaluator -/

theorem metricsLoop_eq_foldl (actual : List ℚ) (predicted : List (Option ℚ)) (acc : MetricSums) :
    metricsLoop actual predicted acc =
      (validPairs actual predicted).foldl (fun s ap => metricsStep s ap.1 ap.2) acc := by
  induction actual generalizing predicted acc with
  | nil => simp [metricsLoop, validPairs]
  | cons a as ih =>
    cases predicted with
    | nil => simpa [metricsLoop, validPairs] using ih [] acc
    | cons p ps =>
      cases p with
      | none => simpa [metricsLoop, validPairs] using ih ps acc
      | some p => simpa [metricsLoop, validPairs] using ih ps (metricsStep acc a p)

theorem foldl_metricsStep (l : List (ℚ × ℚ)) (acc : MetricSums) :
    l.foldl (fun s ap => metricsStep s ap.1 ap.2) acc =
      { n := acc.n + l.length
        mse := acc.mse + (l.map fun ap => (ap.1 - ap.2) * (ap.1 - ap.2)).sum
        mae := acc.mae + (l.map fun ap => |ap.1 - ap.2|).sum
        mape := acc.mape +
          ((l.filter fun ap => decide (ap.1 ≠ 0)).map fun ap => |(ap.1 - ap.2) / ap.1|).sum } := by
  induction l generalizing acc with
  | nil => simp
  | cons ap l ih =>
    rw [List.foldl_cons, ih]
    by_cases h : ap.1 = 0
    · simp [metricsStep, h, add_assoc, Nat.add_comm 1]
    · simp [metricsStep, h, add_assoc, Nat.add_comm 1]

theorem calculateMetrics_eq (actual : List ℚ) (predicted : List (Option ℚ)) :
    calculateMetrics actual predicted =
      if (validPairs actual predicted).length = 0 then none
      else
        let l := validPairs actual predicted
        let mse := (l.map fun ap => (ap.1 - ap.2) * (ap.1 - ap.2)).sum / l.length
        some
          { mse := mse
            rmse := { radicand := mse }
            mae := (l.map fun ap => |ap.1 - ap.2|).sum / l.length
            mape := ((l.filter fun ap => decide (ap.1 ≠ 0)).map
              fun ap => |(ap.1 - ap.2) / ap.1|).sum / l.length * 100
            aic := { n := l.length, arg := mse }
            bic := { n := l.length, arg := mse } } := by
  simp only [calculateMetrics, metricsLoop_eq_foldl, foldl_metricsStep]
  simp

theorem validPairs_self (l : List (ℚ × ℚ)) :
    validPairs (l.map Prod.fst) (l.map fun ap => some ap.2) = l := by
  induction l with
  | nil => rfl
  | cons ap l ih =>
    have : validPairs (ap.1 :: l.map Prod.fst) (some ap.2 :: l.map fun ap => some ap.2) =
        ap :: validPairs (l.map Prod.fst) (l.map fun ap => some ap.2) := by
      simp [validPairs]
    simpa [ih] using this

/-- Claim C2, refuted as stated. On `actual = [0, 2, 4]`, `predicted = [1, 2, 5]`
the MAPE returned by `calculateMetrics` is `25 / 3`, not the `12.5` obtained
on the pair with the position of the zero actual removed. -/
theorem calculateMetrics_mape_counterexample :
    (calculateMetrics [0, 2, 4] [some 1, some 2, some 5]).map Metrics.mape = some (25 / 3) ∧
    (calculateMetrics
      ((dropZeroActual [0, 2, 4] [some 1, some 2, some 5]).map Prod.fst)
      ((dropZeroActual [0, 2, 4] [some 1, some 2, some 5]).map Prod.snd)).map Metrics.mape =
        some (25 / 2) ∧
    (calculateMetrics [0, 2, 4] [some 1, some 2, some 5]).map Metrics.mape ≠
      (calculateMetrics
        ((dropZeroActual [0, 2, 4] [some 1, some 2, some 5]).map Prod.fst)
        ((dropZeroActual [0, 2, 4] [some 1, some 2, some 5]).map Prod.snd)).map Metrics.mape := by
  decide!

/-- Claim C2, amended. When at least one prediction is defined, the MAPE returned
by `calculateMetrics` is `100` times the sum of `|error / actual|` over the
counted positions with `actual ≠ 0`, divided by the number of all counted
positions: a position with `actual = 0` adds nothing to the sum and still
counts in the divisor. -/
theorem calculateMetrics_mape (actual : List ℚ) (predicted : List (Option ℚ))
    (h : validPairs actual predicted ≠ []) :
    ∃ m, calculateMetrics actual predicted = some m ∧
      m.mape = 100 * (((validPairs actual predicted).filter fun ap => decide (ap.1 ≠ 0)).map
        fun ap => |(ap.1 - ap.2) / ap.1|).sum / (validPairs actual predicted).length := by
  have hl : (validPairs actual predicted).length ≠ 0 := by
    simpa [List.length_eq_zero] using h
  rw [calculateMetrics_eq, if_neg hl]
  refine ⟨_, rfl, ?_⟩
  simp only
  ring

theorem calculateMetrics_mape_witness :
    validPairs [0, 2, 4] [some 1, some 2, some 5] ≠ [] ∧
    ∃ m, calculateMetrics [0, 2, 4] [some 1, some 2, some 5] = some m ∧
      m.mape = 100 * (((validPairs [0, 2, 4] [some 1, some 2, some 5]).filter
        fun ap => decide (ap.1 ≠ 0)).map fun ap => |(ap.1 - ap.2) / ap.1|).sum /
          (validPairs [0, 2, 4] [some 1, some 2, some 5]).length :=
  ⟨by decide, calculateMetrics_mape [0, 2, 4] [some 1, some 2, some 5] (by decide)⟩

/-- Claim C3. When at least one prediction is defined, `calculateMetrics` returns
numbers: with `n_valid` the number of positions whose prediction is defined
and `error = actual[i] - predicted[i]`, the MSE is the sum of `error ^ 2` over
those positions divided by `n_valid`, the MAE is the sum of `|error|` divided
by `n_valid`, and the RMSE is the square root of the MSE (a non-negative
number). Positions without a defined prediction contribute nothing: the result
is the result on the pair with those positions removed. -/
theorem calculateMetrics_spec (actual : List ℚ) (predicted : List (Option ℚ))
    (h : validPairs actual predicted ≠ []) :
    ∃ m, calculateMetrics actual predicted = some m ∧
      m.mse = ((validPairs actual predicted).map fun ap => (ap.1 - ap.2) ^ 2).sum /
        (validPairs actual predicted).length ∧
      m.mae = ((validPairs actual predicted).map fun ap => |ap.1 - ap.2|).sum /
        (validPairs actual predicted).length ∧
      m.rmse = { radicand := m.mse } ∧
      0 ≤ m.mse ∧
      Real.sqrt (m.rmse.radicand : ℝ) ^ 2 = (m.mse : ℝ) ∧
      m.aic.n = (validPairs actual predicted).length ∧
      calculateMetrics ((validPairs actual predicted).map Prod.fst)
        ((validPairs actual predicted).map fun ap => some ap.2) = some m := by
  have hl : (validPairs actual predicted).length ≠ 0 := by
    simpa [List.length_eq_zero] using h
  have hsq : ((validPairs actual predicted).map fun ap => (ap.1 - ap.2) * (ap.1 - ap.2)) =
      (validPairs actual predicted).map fun ap => (ap.1 - ap.2) ^ 2 := by
    apply List.map_congr_left
    intro ap _
    ring
  have hnn : 0 ≤ ((validPairs actual predicted).map fun ap => (ap.1 - ap.2) ^ 2).sum /
      ((validPairs actual predicted).length : ℚ) := by
    apply div_nonneg
    · apply List.sum_nonneg
      intro x hx
      obtain ⟨ap, _, rfl⟩ := List.mem_map.1 hx
      positivity
    · positivity
  refine ⟨_, by rw [calculateMetrics_eq, if_neg hl], ?_, rfl, rfl, ?_, ?_, rfl, ?_⟩
  · simp only [hsq]
  · simpa only [hsq] using hnn
  · simp only [hsq]
    rw [Real.sq_sqrt]
    exact_mod_cast hnn
  · rw [calculateMetrics_eq, validPairs_self, if_neg hl]

theorem calculateMetrics_spec_witness :
    validPairs [3, 5, 4] [none, some 4, some 4] ≠ [] ∧
    ∃ m, calculateMetrics [3, 5, 4] [none, some 4, some 4] = some m ∧
      m.mse = ((validPairs [3, 5, 4] [none, some 4, some 4]).map
          fun ap => (ap.1 - ap.2) ^ 2).sum /
        (validPairs [3, 5, 4] [none, some 4, some 4]).length ∧
      m.mae = ((validPairs [3, 5, 4] [none, some 4, some 4]).map fun ap => |ap.1 - ap.2|).sum /
        (validPairs [3, 5, 4] [none, some 4, some 4]).length ∧
      m.rmse = { radicand := m.mse } ∧
      0 ≤ m.mse ∧
      Real.sqrt (m.rmse.radicand : ℝ) ^ 2 = (m.mse : ℝ) ∧
      m.aic.n = (validPairs [3, 5, 4] [none, some 4, some 4]).length ∧
      calculateMetrics ((validPairs [3, 5, 4] [none, some 4, some 4]).map Prod.fst)
        ((validPairs [3, 5, 4] [none, some 4, some 4]).map fun ap => some ap.2) = some m :=
  ⟨by decide, calculateMetrics_spec [3, 5, 4] [none, some 4, some 4] (by decide)⟩

/-! ## Linear regression -/

theorem foldl_pair_add (l : List (ℚ × ℚ)) (a : ℚ) :
    l.foldl (fun acc p => acc + p.1 * p.2) a = a + (l.map fun p => p.1 * p.2).sum := by
  induction l generalizing a with
  | nil => simp
  | cons p l ih => simp [ih, add_assoc]

/-- The positions `0, 1, ..., n - 1` as numbers: `trainData.map((_, i) => i)`. -/
theorem sum_positions (n : ℕ) :
    2 * ((List.range n).map fun (i : ℕ) => (i : ℚ)).sum = n * (n - 1) := by
  induction n with
  | zero => simp
  | succ n ih =>
    rw [List.range_succ, List.map_append, List.sum_append, mul_add, ih]
    push_cast
    simp
    ring

theorem sum_sq_positions (n : ℕ) :
    6 * ((List.range n).map fun (i : ℕ) => (i : ℚ) * (i : ℚ)).sum =
      (n - 1) * n * (2 * n - 1) := by
  induction n with
  | zero => simp
  | succ n ih =>
    rw [List.range_succ, List.map_append, List.sum_append, mul_add, ih]
    push_cast
    simp
    ring

theorem sum_linear (a b : ℚ) (n : ℕ) :
    ((List.range n).map fun (i : ℕ) => a * (i : ℚ) + b).sum =
      a * ((List.range n).map fun (i : ℕ) => (i : ℚ)).sum + n * b := by
  induction n with
  | zero => simp
  | succ n ih =>
    simp only [List.range_succ, List.map_append, List.sum_append, ih]
    push_cast
    simp
    ring

theorem sum_position_mul_linear (a b : ℚ) (n : ℕ) :
    ((List.range n).map fun (i : ℕ) => (i : ℚ) * (a * (i : ℚ) + b)).sum =
      a * ((List.range n).map fun (i : ℕ) => (i : ℚ) * (i : ℚ)).sum +
        b * ((List.range n).map fun (i : ℕ) => (i : ℚ)).sum := by
  induction n with
  | zero => simp
  | succ n ih =>
    simp only [List.range_succ, List.map_append, List.sum_append, ih]
    simp
    ring

theorem zip_map_map {α : Type} (f g : α → ℚ) (l : List α) :
    (l.map f).zip (l.map g) = l.map fun i => (f i, g i) := by
  induction l with
  | nil => rfl
  | cons i l ih => simp [ih]

theorem validPairs_map_some {α : Type} (f g : α → ℚ) (l : List α) :
    validPairs (l.map f) (l.map fun i => some (g i)) = l.map fun i => (f i, g i) := by
  induction l with
  | nil => rfl
  | cons i l ih =>
    have : validPairs (f i :: l.map f) (some (g i) :: l.map fun i => some (g i)) =
        (f i, g i) :: validPairs (l.map f) (l.map fun i => some (g i)) := by
      simp [validPairs]
    simpa [ih] using this

/-- The fit of `linearRegression` on the positions `0, ..., n - 1` and the values
`a * i + b`, for `n ≥ 2`. -/
theorem linearRegression_linear (a b : ℚ) (n : ℕ) (hn : 2 ≤ n) :
    linearRegression ((List.range n).map fun (i : ℕ) => (i : ℚ))
      ((List.range n).map fun (i : ℕ) => a * (i : ℚ) + b) =
        { slope := some a, intercept := some b } := by
  have h1 := sum_positions n
  have h2 := sum_sq_positions n
  have hn2 : (2 : ℚ) ≤ n := by exact_mod_cast hn
  have hn0 : (n : ℚ) ≠ 0 := by positivity
  set S1 := ((List.range n).map fun (i : ℕ) => (i : ℚ)).sum with hS1
  set S2 := ((List.range n).map fun (i : ℕ) => (i : ℚ) * (i : ℚ)).sum with hS2
  have hden : (n : ℚ) * S2 - S1 * S1 ≠ 0 := by
    have h12 : 12 * ((n : ℚ) * S2 - S1 * S1) = n * n * (n - 1) * (n + 1) := by
      have e1 : 12 * ((n : ℚ) * S2 - S1 * S1) = 2 * n * (6 * S2) - 3 * ((2 * S1) * (2 * S1)) := by
        ring
      rw [e1, h1, h2]
      ring
    intro h0
    rw [h0, mul_zero] at h12
    have hpos : 0 < (n : ℚ) * n * (n - 1) * (n + 1) := by
      have : (0 : ℚ) < n - 1 := by linarith
      have : (0 : ℚ) < n := by linarith
      positivity
    linarith
  have hslope : (n * (a * S2 + b * S1) - S1 * (a * S1 + n * b)) / (n * S2 - S1 * S1) = a := by
    rw [div_eq_iff hden]
    ring
  have hint : (a * S1 + n * b - a * S1) / (n : ℚ) = b := by
    rw [div_eq_iff hn0]
    ring
  simp only [linearRegression, List.length_map, List.length_range, le_refl, if_true,
    foldl_add_eq (fun x => x), foldl_add_eq (fun x => x * x), zip_map_map, foldl_pair_add,
    List.map_map, Function.comp_def, zero_add, sum_linear, sum_position_mul_linear,
    Option.some_bind]
  rw [← hS1, ← hS2]
  simp [jsDiv, hden, hslope, hn0, hint]

/-- Claim C4. For all numbers `a`, `b` and every `n ≥ 2`, `linearRegression` on the
positions `0, ..., n - 1` and the values `a * i + b` returns the slope `a` and
the intercept `b`; its `predict` returns `a * i + b` at every position `i`,
also beyond `n - 1`; and on every non-empty segment of positions
`k, ..., k + len - 1` of the same linear series the mean squared error of the
fitted line computed by `calculateMetrics` is `0` (and so is its root). -/
theorem linearRegression_exact (a b : ℚ) (n : ℕ) (hn : 2 ≤ n) :
    (linearRegression ((List.range n).map fun (i : ℕ) => (i : ℚ))
      ((List.range n).map fun (i : ℕ) => a * (i : ℚ) + b)).slope = some a ∧
    (linearRegression ((List.range n).map fun (i : ℕ) => (i : ℚ))
      ((List.range n).map fun (i : ℕ) => a * (i : ℚ) + b)).intercept = some b ∧
    (∀ i : ℕ, (linearRegression ((List.range n).map fun (i : ℕ) => (i : ℚ))
      ((List.range n).map fun (i : ℕ) => a * (i : ℚ) + b)).predict (i : ℚ) =
        some (a * (i : ℚ) + b)) ∧
    ∀ k len : ℕ, 0 < len →
      ∃ m, calculateMetrics ((List.range' k len).map fun (i : ℕ) => a * (i : ℚ) + b)
        ((List.range' k len).map fun (i : ℕ) =>
          (linearRegression ((List.range n).map fun (i : ℕ) => (i : ℚ))
            ((List.range n).map fun (i : ℕ) => a * (i : ℚ) + b)).predict (i : ℚ)) = some m ∧
        m.mse = 0 ∧ m.rmse = { radicand := 0 } := by
  rw [linearRegression_linear a b n hn]
  refine ⟨rfl, rfl, fun i => rfl, fun k len hlen => ?_⟩
  have hvp : validPairs ((List.range' k len).map fun (i : ℕ) => a * (i : ℚ) + b)
      ((List.range' k len).map fun (i : ℕ) =>
        Regression.predict { slope := some a, intercept := some b } (i : ℚ)) =
      (List.range' k len).map fun (i : ℕ) => (a * (i : ℚ) + b, a * (i : ℚ) + b) := by
    exact validPairs_map_some _ _ _
  have hlen : ((List.range' k len).map fun (i : ℕ) =>
      (a * (i : ℚ) + b, a * (i : ℚ) + b)).length ≠ 0 := by
    simp only [List.length_map, List.length_range']
    omega
  rw [calculateMetrics_eq, hvp, if_neg hlen]
  refine ⟨_, rfl, ?_, ?_⟩
  · simp [Function.comp_def]
  · simp [Function.comp_def]

theorem linearRegression_exact_witness :
    2 ≤ 3 ∧
    (linearRegression ((List.range 3).map fun (i : ℕ) => (i : ℚ))
      ((List.range 3).map fun (i : ℕ) => 2 * (i : ℚ) + 1)).slope = some 2 ∧
    (linearRegression ((List.range 3).map fun (i : ℕ) => (i : ℚ))
      ((List.range 3).map fun (i : ℕ) => 2 * (i : ℚ) + 1)).intercept = some 1 ∧
    (∀ i : ℕ, (linearRegression ((List.range 3).map fun (i : ℕ) => (i : ℚ))
      ((List.range 3).map fun (i : ℕ) => 2 * (i : ℚ) + 1)).predict (i : ℚ) =
        some (2 * (i : ℚ) + 1)) ∧
    ∀ k len : ℕ, 0 < len →
      ∃ m, calculateMetrics ((List.range' k len).map fun (i : ℕ) => 2 * (i : ℚ) + 1)
        ((List.range' k len).map fun (i : ℕ) =>
          (linearRegression ((List.range 3).map fun (i : ℕ) => (i : ℚ))
            ((List.range 3).map fun (i : ℕ) => 2 * (i : ℚ) + 1)).predict (i : ℚ)) = some m ∧
        m.mse = 0 ∧ m.rmse = { radicand := 0 } :=
  ⟨by decide, linearRegression_exact 2 1 3 (by decide)⟩

/-! ## The linear-regression model of `runAnalysis` -/

theorem mem_sortModels (m : ModelResult) (l : List ModelResult) :
    m ∈ sortModels l ↔ m ∈ l :=
  (List.perm_insertionSort rmseLe l).mem_iff

/-- The predictions of the entry of `models` named after the linear regression:
the fitted line of the training segment at every position of the series. -/
theorem fittedModels_lr (values : List ℚ) (trainRatio : ℚ) (m : ModelResult)
    (hm : m ∈ fittedModels values trainRatio) (hname : m.name = "Régression Linéaire") :
    m.predictions = (List.range values.length).map fun (i : ℕ) =>
      (linearRegression
        ((List.range (jsSlice values 0 (trainSizeOf values.length trainRatio)).length).map
          fun (i : ℕ) => (i : ℚ))
        (jsSlice values 0 (trainSizeOf values.length trainRatio))).predict (i : ℚ) := by
  simp only [fittedModels, List.mem_append, List.mem_cons, List.mem_singleton,
    List.not_mem_nil, or_false] at hm
  rcases hm with (rfl | rfl | rfl | rfl) | hm
  · simp at hname
  · rfl
  · simp at hname
  · simp at hname
  · split at hm
    · simp only [List.mem_cons, List.mem_singleton, List.not_mem_nil, or_false] at hm
      rcases hm with rfl | rfl
      · simp at hname
      · simp at hname
    · simp at hm

theorem fittedModels_lr_mem (values : List ℚ) (trainRatio : ℚ) :
    ∃ m ∈ fittedModels values trainRatio, m.name = "Régression Linéaire" := by
  simp only [fittedModels, List.mem_append, List.mem_cons]
  exact ⟨_, Or.inl (Or.inr (Or.inl rfl)), rfl⟩

theorem jsSlice_train_congr (v1 v2 : List ℚ) (t : ℤ) (ht : 0 ≤ t)
    (hlen : v1.length = v2.length)
    (hagree : ∀ i : ℕ, (i : ℤ) < t → v1.get? i = v2.get? i) :
    jsSlice v1 0 t = jsSlice v2 0 t := by
  have h0 : ∀ n : ℕ, sliceIndex n 0 = 0 := by
    intro n
    simp [sliceIndex]
  have hs : ∀ n : ℕ, sliceIndex n t = min t.toNat n := by
    intro n
    simp [sliceIndex, not_lt.2 ht]
  simp only [jsSlice, h0, hs, List.drop_zero, hlen]
  apply List.ext_getElem?
  intro i
  by_cases hi : i < min t.toNat v2.length
  · rw [List.getElem?_take_of_lt hi, List.getElem?_take_of_lt hi]
    have h := hagree i (by
      have : i < t.toNat := lt_of_lt_of_le hi (min_le_left _ _)
      omega)
    simpa using h
  · rw [List.getElem?_eq_none, List.getElem?_eq_none]
    · simp only [List.length_take]; omega
    · simp only [List.length_take]; omega

/-- Claim C5. The predictions of the linear-regression model of `runAnalysis` are
fit from the training segment only: two series of the same length that agree
at every position below `trainSize` (for the same non-negative `trainRatio`)
get the same linear-regression prediction sequence, over train and test
positions alike, whatever their test-segment values. -/
theorem lr_predictions_train_only (v1 v2 : List ℚ) (trainRatio : ℚ) (hr : 0 ≤ trainRatio)
    (hlen : v1.length = v2.length)
    (hagree : ∀ i : ℕ, (i : ℤ) < trainSizeOf v1.length trainRatio → v1.get? i = v2.get? i) :
    (∃ m ∈ (analyse v1 trainRatio).models, m.name = "Régression Linéaire") ∧
    ∀ m1 ∈ (analyse v1 trainRatio).models, ∀ m2 ∈ (analyse v2 trainRatio).models,
      m1.name = "Régression Linéaire" → m2.name = "Régression Linéaire" →
        m1.predictions = m2.predictions ∧ m1.predictions.length = v1.length := by
  have ht : 0 ≤ trainSizeOf v1.length trainRatio :=
    trainSizeOf_nonneg _ _ hr
  constructor
  · obtain ⟨m, hm, hn⟩ := fittedModels_lr_mem v1 trainRatio
    exact ⟨m, (mem_sortModels m _).2 hm, hn⟩
  · intro m1 h1 m2 h2 hn1 hn2
    have e1 := fittedModels_lr v1 trainRatio m1 ((mem_sortModels m1 _).1 h1) hn1
    have e2 := fittedModels_lr v2 trainRatio m2 ((mem_sortModels m2 _).1 h2) hn2
    have hs := jsSlice_train_congr v1 v2 _ ht hlen hagree
    refine ⟨?_, by rw [e1]; simp⟩
    rw [e1, e2, ← hlen, hs]

theorem lr_predictions_train_only_witness :
    (0 : ℚ) ≤ 1 / 2 ∧
    ([1, 2, 4, 7] : List ℚ).length = ([1, 2, 9, 0] : List ℚ).length ∧
    (∃ m ∈ (analyse [1, 2, 4, 7] (1 / 2)).models, m.name = "Régression Linéaire") ∧
    ∀ m1 ∈ (analyse [1, 2, 4, 7] (1 / 2)).models, ∀ m2 ∈ (analyse [1, 2, 9, 0] (1 / 2)).models,
      m1.name = "Régression Linéaire" → m2.name = "Régression Linéaire" →
        m1.predictions = m2.predictions ∧
          m1.predictions.length = ([1, 2, 4, 7] : List ℚ).length :=
  ⟨by norm_num, rfl, lr_predictions_train_only [1, 2, 4, 7] [1, 2, 9, 0] (1 / 2) (by norm_num) rfl
    (by
      have ht : trainSizeOf ([1, 2, 4, 7] : List ℚ).length (1 / 2) = 2 := by
        decide!
      intro i hi
      rw [ht] at hi
      have : i < 2 := by omega
      interval_cases i <;> rfl)⟩

/-! ## Seasonality detector -/

theorem foldl_add_map {α : Type} (f : α → ℚ) (xs : List α) (a : ℚ) :
    xs.foldl (fun acc b => acc + f b) a = a + (xs.map f).sum := by
  induction xs generalizing a with
  | nil => simp
  | cons x xs ih => simp [ih, add_assoc]

theorem sum_map_range' (f : ℕ → ℚ) (s n : ℕ) :
    ((List.range' s n).map f).sum = ∑ i in Finset.Ico s (s + n), f i := by
  induction n with
  | zero => simp
  | succ n ih =>
    rw [List.range'_concat, List.map_append, List.sum_append, ih, ← add_assoc,
      Finset.sum_Ico_succ_top (by omega)]
    simp

theorem autocovSum_eq (data : List ℚ) (mean : ℚ) (lag : ℕ) (hlag : lag ≤ data.length) :
    autocovSum data mean lag = ∑ i in Finset.Ico lag data.length,
      (data.getD i 0 - mean) * (data.getD (i - lag) 0 - mean) := by
  unfold autocovSum
  rw [foldl_add_map (fun i => (data.getD i 0 - mean) * (data.getD (i - lag) 0 - mean)),
    sum_map_range', zero_add]
  congr 2
  omega

theorem head?_filter_eq_find? {α : Type} (p : α → Bool) (l : List α) :
    (l.filter p).head? = l.find? p := by
  induction l with
  | nil => rfl
  | cons a l ih =>
    by_cases h : p a = true
    · simp [List.filter_cons, List.find?_cons, h]
    · simp [List.filter_cons, List.find?_cons, h, ih]

theorem find?_range_some (q : ℕ → Bool) (m k : ℕ) (h : (List.range m).find? q = some k) :
    k < m ∧ q k = true ∧ ∀ j < k, q j = false := by
  induction m with
  | zero => simp at h
  | succ m ih =>
    rw [List.range_succ, List.find?_append] at h
    cases hfind : (List.range m).find? q with
    | some k' =>
      rw [hfind] at h
      simp only [Option.or_some, Option.some.injEq] at h
      subst h
      have := ih hfind
      exact ⟨by omega, this.2⟩
    | none =>
      rw [hfind] at h
      simp only [Option.none_or] at h
      have hnone : ∀ j < m, q j = false := by
        intro j hj
        have := List.find?_eq_none.1 hfind j (List.mem_range.2 hj)
        simpa using this
      by_cases hq : q m = true
      · simp only [List.find?_cons, hq, Option.some.injEq] at h
        subst h
        exact ⟨by omega, hq, hnone⟩
      · have hq' : q m = false := by simpa using hq
        simp [List.find?_cons, hq'] at h

theorem find?_range_eq_some (q : ℕ → Bool) (m i : ℕ) :
    (List.range m).find? q = some i ↔ i < m ∧ q i = true ∧ ∀ j < i, q j = false := by
  constructor
  · exact find?_range_some q m i
  · rintro ⟨hi, hq, hlt⟩
    cases hfind : (List.range m).find? q with
    | none =>
      have := List.find?_eq_none.1 hfind i (List.mem_range.2 hi)
      exact absurd hq this
    | some k =>
      obtain ⟨_, hqk, hltk⟩ := find?_range_some q m k hfind
      rcases Nat.lt_trichotomy k i with h | h | h
      · rw [hlt k h] at hqk
        cases hqk
      · rw [h]
      · rw [hltk i h] at hq
        cases hq

theorem find?_range_eq_none (q : ℕ → Bool) (m : ℕ) :
    (List.range m).find? q = none ↔ ∀ j < m, q j = false := by
  rw [List.find?_eq_none]
  constructor
  · intro h j hj
    simpa using h j (List.mem_range.2 hj)
  · intro h j hj
    simp [h j (List.mem_range.1 hj)]

theorem autocorr_value_eq (data : List ℚ) (lag : ℕ) (hlag : lag ≤ data.length) :
    jsDiv (autocovSum data (reduceAdd data / data.length) lag)
      (data.length * (data.foldl (fun a b => a + (b - reduceAdd data / data.length) ^ 2) 0 /
        data.length)) = acfSpec data lag := by
  have hvar : data.foldl (fun a b => a + (b - reduceAdd data / data.length) ^ 2) 0 /
      data.length = seriesVariance data := by
    rw [foldl_add_map (fun b => (b - reduceAdd data / data.length) ^ 2), zero_add,
      reduceAdd_eq_sum]
    rfl
  rw [hvar, autocovSum_eq data _ lag hlag, reduceAdd_eq_sum]
  rfl

theorem autocorrelogram_eq (data : List ℚ) (maxLag : ℕ) :
    autocorrelogram data maxLag =
      (List.range (min maxLag (data.length / 2))).map fun i =>
        { lag := i + 1, value := acfSpec data (i + 1) } := by
  unfold autocorrelogram
  rw [List.range'_eq_map_range, List.map_map]
  apply List.map_congr_left
  intro i hi
  have hi' : i < min maxLag (data.length / 2) := List.mem_range.1 hi
  have hlag : 1 + i ≤ data.length := by
    have : min maxLag (data.length / 2) ≤ data.length / 2 := min_le_right _ _
    omega
  simp only [Function.comp]
  rw [autocorr_value_eq data (1 + i) hlag, Nat.add_comm 1 i]

theorem enum_map_range {α : Type} (g : ℕ → α) (m : ℕ) :
    ((List.range m).map g).enum = (List.range m).map fun i => (i, g i) := by
  apply List.ext_getElem?
  intro i
  rw [List.getElem?_enum]
  by_cases hi : i < m
  · simp [List.getElem?_map, List.getElem?_range hi]
  · have h1 : ((List.range m).map g)[i]? = none := by
      apply List.getElem?_eq_none
      simp
      omega
    have h2 : ((List.range m).map fun i => (i, g i))[i]? = none := by
      apply List.getElem?_eq_none
      simp
      omega
    rw [h1, h2]
    rfl

theorem jsGt_eq_true (a b : Option ℚ) :
    jsGt a b = true ↔ ∃ x y, a = some x ∧ b = some y ∧ y < x := by
  cases a <;> cases b <;> simp [jsGt]

theorem isPeakAt_iff (data : List ℚ) (maxLag i : ℕ) :
    isPeakAt (autocorrelogram data maxLag) i { lag := i + 1, value := acfSpec data (i + 1) } =
      true ↔ IsCandidatePeriod data maxLag (i + 1) := by
  have hlen : (autocorrelogram data maxLag).length = min maxLag (data.length / 2) := by
    simp [autocorrelogram]
  have hget : ∀ j, j < min maxLag (data.length / 2) →
      ((autocorrelogram data maxLag).get? j).bind AutocorrEntry.value = acfSpec data (j + 1) := by
    intro j hj
    rw [autocorrelogram_eq]
    simp [List.getElem?_map, List.getElem?_range hj]
  unfold isPeakAt IsCandidatePeriod
  rw [hlen]
  simp only [Bool.and_eq_true, decide_eq_true_eq, jsGt_eq_true]
  constructor
  · rintro ⟨⟨⟨⟨h0, h1⟩, hl⟩, hr⟩, ht⟩
    have h1' : i + 1 < min maxLag (data.length / 2) := by omega
    rw [hget (i - 1) (by omega)] at hl
    rw [hget (i + 1) h1'] at hr
    obtain ⟨v, l, hv, hl, hlv⟩ := hl
    obtain ⟨v', r, hv', hr, hrv⟩ := hr
    obtain ⟨v'', t, hv'', ht, htv⟩ := ht
    have e1 : v' = v := Option.some.inj (hv'.symm.trans hv)
    have e2 : v'' = v := Option.some.inj (hv''.symm.trans hv)
    have e3 : t = roundDouble (3 / 10) := (Option.some.inj ht).symm
    rw [e1] at hrv
    rw [e2, e3] at htv
    have hi1 : i - 1 + 1 = i := by omega
    rw [hi1] at hl
    exact ⟨by omega, by omega, v, l, r, hv, by simpa using hl, hr, hlv, hrv, htv⟩
  · rintro ⟨h2, hm, v, l, r, hv, hl, hr, hlv, hrv, htv⟩
    have h1' : i + 1 < min maxLag (data.length / 2) := by omega
    rw [hget (i - 1) (by omega), hget (i + 1) h1']
    have hi1 : i - 1 + 1 = i := by omega
    rw [hi1]
    simp only [Nat.add_sub_cancel] at hl
    exact ⟨⟨⟨⟨by omega, by omega⟩, v, l, hv, hl, hlv⟩, v, r, hv, hr, hrv⟩, v, roundDouble (3 / 10), hv, rfl, htv⟩

theorem detectSeasonality_period (data : List ℚ) (maxLag : ℕ) :
    (detectSeasonality data maxLag).period =
      ((List.range (min maxLag (data.length / 2))).find? fun i =>
        isPeakAt (autocorrelogram data maxLag) i
          { lag := i + 1, value := acfSpec data (i + 1) }).map fun i => i + 1 := by
  unfold detectSeasonality selectPeriod
  simp only
  rw [List.head?_map, head?_filter_eq_find?]
  conv_lhs => rw [autocorrelogram_eq, enum_map_range, List.find?_map]
  rw [← autocorrelogram_eq]
  simp only [Option.map_map]
  rfl

theorem period_eq_some_iff (data : List ℚ) (maxLag p : ℕ) :
    (detectSeasonality data maxLag).period = some p ↔
      IsCandidatePeriod data maxLag p ∧ ∀ q < p, ¬ IsCandidatePeriod data maxLag q := by
  rw [detectSeasonality_period]
  constructor
  · intro h
    obtain ⟨i, hi, rfl⟩ := Option.map_eq_some'.1 h
    obtain ⟨him, hq, hlt⟩ := (find?_range_eq_some _ _ _).1 hi
    refine ⟨(isPeakAt_iff data maxLag i).1 hq, ?_⟩
    intro q hqp hcand
    have h2 := hcand.1
    have hm := hcand.2.1
    have hq1 : q - 1 + 1 = q := by omega
    have hj := hlt (q - 1) (by omega)
    rw [← hq1] at hcand
    have := (isPeakAt_iff data maxLag (q - 1)).2 hcand
    rw [hj] at this
    cases this
  · rintro ⟨hcand, hmin⟩
    have h2 := hcand.1
    have hm := hcand.2.1
    have hp1 : p - 1 + 1 = p := by omega
    apply Option.map_eq_some'.2
    refine ⟨p - 1, ?_, hp1⟩
    rw [find?_range_eq_some]
    refine ⟨by omega, ?_, ?_⟩
    · apply (isPeakAt_iff data maxLag (p - 1)).2
      rw [hp1]
      exact hcand
    · intro j hj
      have hjm : j < min maxLag (data.length / 2) := by omega
      by_contra hne
      have htrue : isPeakAt (autocorrelogram data maxLag) j
          { lag := j + 1, value := acfSpec data (j + 1) } = true := by
        simpa using hne
      exact hmin (j + 1) (by omega) ((isPeakAt_iff data maxLag j).1 htrue)

theorem period_eq_none_iff (data : List ℚ) (maxLag : ℕ) :
    (detectSeasonality data maxLag).period = none ↔
      ∀ q, ¬ IsCandidatePeriod data maxLag q := by
  rw [detectSeasonality_period, Option.map_eq_none', find?_range_eq_none]
  constructor
  · intro h q hcand
    have h2 := hcand.1
    have hm := hcand.2.1
    have hq1 : q - 1 + 1 = q := by omega
    have hj := h (q - 1) (by omega)
    rw [← hq1] at hcand
    have := (isPeakAt_iff data maxLag (q - 1)).2 hcand
    rw [hj] at this
    cases this
  · intro h j hj
    by_contra hne
    have htrue : isPeakAt (autocorrelogram data maxLag) j
        { lag := j + 1, value := acfSpec data (j + 1) } = true := by
      simpa using hne
    exact h (j + 1) ((isPeakAt_iff data maxLag j).1 htrue)


/-! ### The period as a function of the returned autocorrelogram -/

theorem lt_pow2_log2Floor_succ (q : ℚ) (hq : 0 < q) : q < pow2 (log2Floor q + 1) := by
  unfold log2Floor
  simp only
  split
  · have hnum : 0 < q.num := Rat.num_pos.2 hq
    obtain ⟨_, hA⟩ := log2Nat_bounds q.num.natAbs (by
      intro h0
      have := Int.natAbs_eq_zero.1 h0
      omega)
    obtain ⟨hB, _⟩ := log2Nat_bounds q.den q.den_nz
    set A := log2Fuel q.num.natAbs q.num.natAbs
    set B := log2Fuel q.den q.den
    rw [pow2_eq_zpow]
    have hden : (0 : ℚ) < q.den := by exact_mod_cast q.den_pos
    have hqeq : q = (q.num.natAbs : ℚ) / q.den := by
      have hcast : ((q.num.natAbs : ℕ) : ℚ) = (q.num : ℚ) := by
        rw [Nat.cast_natAbs, abs_of_pos hnum]
      rw [hcast]
      exact (Rat.num_div_den q).symm
    have hA' : (q.num.natAbs : ℚ) < 2 ^ (A + 1) := by exact_mod_cast hA
    have hB' : (2 : ℚ) ^ B ≤ (q.den : ℚ) := by exact_mod_cast hB
    have hsplit : (2 : ℚ) ^ ((A : ℤ) - (B : ℤ) + 1) = 2 ^ (A + 1) / 2 ^ B := by
      rw [show (A : ℤ) - (B : ℤ) + 1 = ((A + 1 : ℕ) : ℤ) - (B : ℤ) by push_cast; ring,
        zpow_sub₀ (by norm_num), zpow_natCast, zpow_natCast]
    rw [hsplit]
    conv_lhs => rw [hqeq]
    have hpB : (0 : ℚ) < 2 ^ B := by positivity
    rw [div_lt_div_iff₀ hden hpB]
    have h1 : (q.num.natAbs : ℚ) * 2 ^ B ≤ (q.num.natAbs : ℚ) * q.den :=
      mul_le_mul_of_nonneg_left hB' (by positivity)
    have h2 : (q.num.natAbs : ℚ) * q.den < 2 ^ (A + 1) * q.den :=
      mul_lt_mul_of_pos_right hA' hden
    exact lt_of_le_of_lt h1 h2
  · rename_i h
    rw [sub_add_cancel]
    exact not_le.1 h

theorem roundDouble_threshold : roundDouble (3 / 10) = 5404319552844595 / 18014398509481984 := by
  decide!

theorem double_gt_threshold_iff (v : ℚ) (hv : roundDouble v = v) :
    roundDouble (3 / 10) < v ↔ 3 / 10 < v := by
  rw [roundDouble_threshold]
  constructor
  · intro ht
    by_contra hle
    have hle : v ≤ 3 / 10 := not_lt.1 hle
    have hpos : 0 < v := lt_trans (by norm_num) ht
    have hlo := pow2_log2Floor_le v hpos
    have hhi := lt_pow2_log2Floor_succ v hpos
    rw [pow2_eq_zpow] at hlo hhi
    have hl1 : log2Floor v < -1 := by
      have : (2 : ℚ) ^ (log2Floor v) < 2 ^ (-1 : ℤ) := by
        refine lt_of_le_of_lt hlo (lt_of_le_of_lt hle ?_)
        norm_num
      exact (zpow_lt_zpow_iff_right₀ (by norm_num)).1 this
    have hl2 : -2 < log2Floor v + 1 := by
      have : (2 : ℚ) ^ (-2 : ℤ) < 2 ^ (log2Floor v + 1) := by
        refine lt_trans ?_ (lt_trans ht hhi)
        norm_num
      exact (zpow_lt_zpow_iff_right₀ (by norm_num)).1 this
    have hl : log2Floor v = -2 := by omega
    have hne : v ≠ 0 := hpos.ne'
    have hnot : ¬ v < 0 := not_lt.2 hpos.le
    unfold roundDouble at hv
    rw [if_neg hne] at hv
    simp only [abs_of_pos hpos, hl, if_neg hnot, one_mul] at hv
    have hulp : pow2 (max (-2) (-1022) - 52) = 1 / 18014398509481984 := by decide!
    rw [hulp] at hv
    set m : ℤ := roundHalfEven (v / (1 / 18014398509481984)) with hm
    have hmv : (m : ℚ) = v * 18014398509481984 := by
      rw [← hv]
      ring
    have h1 : (5404319552844595 : ℚ) < m := by
      rw [hmv]
      linarith
    have h1z : (5404319552844595 : ℤ) < m := by exact_mod_cast h1
    have h2 : (5404319552844596 : ℚ) ≤ m := by exact_mod_cast h1z
    rw [hmv] at h2
    linarith
  · intro h
    exact lt_trans (by norm_num) h

theorem selectPeriod_map (g : ℕ → AutocorrEntry) (n : ℕ) :
    selectPeriod ((List.range n).map g) =
      ((List.range n).find? fun i => isPeakAt ((List.range n).map g) i (g i)).map
        fun i => (g i).lag := by
  unfold selectPeriod
  rw [List.head?_map, head?_filter_eq_find?, enum_map_range, List.find?_map]
  simp only [Option.map_map]
  rfl

theorem isPeakAt_map_iff (val : ℕ → Option ℚ) (n i : ℕ) :
    isPeakAt ((List.range n).map fun j => { lag := j + 1, value := val j }) i
        { lag := i + 1, value := val i } = true ↔
      0 < i ∧ i + 1 < n ∧ ∃ v a b, val i = some v ∧ val (i - 1) = some a ∧
        val (i + 1) = some b ∧ a < v ∧ b < v ∧ roundDouble (3 / 10) < v := by
  have hget : ∀ j, j < n →
      (((List.range n).map fun j => ({ lag := j + 1, value := val j } : AutocorrEntry)).get?
        j).bind AutocorrEntry.value = val j := by
    intro j hj
    simp [List.getElem?_map, List.getElem?_range hj]
  unfold isPeakAt
  rw [List.length_map, List.length_range]
  simp only [Bool.and_eq_true, decide_eq_true_eq, jsGt_eq_true]
  constructor
  · rintro ⟨⟨⟨⟨h0, h1⟩, hl⟩, hr⟩, ht⟩
    have h1' : i + 1 < n := by omega
    rw [hget (i - 1) (by omega)] at hl
    rw [hget (i + 1) h1'] at hr
    obtain ⟨v, l, hv, hl, hlv⟩ := hl
    obtain ⟨v', r, hv', hr, hrv⟩ := hr
    obtain ⟨v'', t, hv'', ht, htv⟩ := ht
    have e1 : v' = v := Option.some.inj (hv'.symm.trans hv)
    have e2 : v'' = v := Option.some.inj (hv''.symm.trans hv)
    have e3 : t = roundDouble (3 / 10) := (Option.some.inj ht).symm
    rw [e1] at hrv
    rw [e2, e3] at htv
    exact ⟨h0, h1', v, l, r, hv, hl, hr, hlv, hrv, htv⟩
  · rintro ⟨h0, h1', v, l, r, hv, hl, hr, hlv, hrv, htv⟩
    rw [hget (i - 1) (by omega), hget (i + 1) h1']
    exact ⟨⟨⟨⟨h0, by omega⟩, v, l, hv, hl, hlv⟩, v, r, hv, hr, hrv⟩,
      v, roundDouble (3 / 10), hv, rfl, htv⟩

theorem isPeakLag_map_iff (val : ℕ → Option ℚ) (n i : ℕ) :
    IsPeakLag ((List.range n).map fun j => { lag := j + 1, value := val j }) (i + 1) ↔
      0 < i ∧ i + 1 < n ∧ ∃ v a b, val i = some v ∧ val (i - 1) = some a ∧
        val (i + 1) = some b ∧ a < v ∧ b < v ∧ roundDouble (3 / 10) < v := by
  constructor
  · rintro ⟨e, l, r, he, hl, hr, hel, hll, hrl, v, a, b, hv, ha, hb, hav, hbv, htv⟩
    obtain ⟨je, hje, rfl⟩ := List.mem_map.1 he
    obtain ⟨jl, hjl, rfl⟩ := List.mem_map.1 hl
    obtain ⟨jr, hjr, rfl⟩ := List.mem_map.1 hr
    simp only at hel hll hrl hv ha hb
    have hje' := List.mem_range.1 hje
    have hjr' := List.mem_range.1 hjr
    have e1 : je = i := by omega
    have e2 : jl = i - 1 := by omega
    have e3 : jr = i + 1 := by omega
    subst e1
    rw [e2] at ha
    rw [e3] at hb
    exact ⟨by omega, by omega, v, a, b, hv, ha, hb, hav, hbv, htv⟩
  · rintro ⟨h0, h1, v, a, b, hv, ha, hb, hav, hbv, htv⟩
    refine ⟨{ lag := i + 1, value := val i }, { lag := i - 1 + 1, value := val (i - 1) },
      { lag := i + 1 + 1, value := val (i + 1) }, ?_, ?_, ?_, rfl, ?_, rfl,
      v, a, b, hv, ha, hb, hav, hbv, htv⟩
    · exact List.mem_map.2 ⟨i, List.mem_range.2 (by omega), rfl⟩
    · exact List.mem_map.2 ⟨i - 1, List.mem_range.2 (by omega), rfl⟩
    · exact List.mem_map.2 ⟨i + 1, List.mem_range.2 h1, rfl⟩
    · show i - 1 + 1 + 1 = i + 1
      omega

theorem isPeakLag_map_pos (val : ℕ → Option ℚ) (n p : ℕ)
    (h : IsPeakLag ((List.range n).map fun j => { lag := j + 1, value := val j }) p) :
    p - 1 + 1 = p ∧ p - 1 < n := by
  obtain ⟨e, l, r, he, hl, hr, hel, hll, hrl, _⟩ := h
  obtain ⟨je, hje, rfl⟩ := List.mem_map.1 he
  have hje' := List.mem_range.1 hje
  simp only at hel
  omega

theorem selectPeriod_map_some_iff (val : ℕ → Option ℚ) (n p : ℕ) :
    selectPeriod ((List.range n).map fun j => { lag := j + 1, value := val j }) = some p ↔
      IsPeakLag ((List.range n).map fun j => { lag := j + 1, value := val j }) p ∧
        ∀ q < p,
          ¬ IsPeakLag ((List.range n).map fun j => { lag := j + 1, value := val j }) q := by
  rw [selectPeriod_map]
  constructor
  · intro h
    obtain ⟨i, hi, rfl⟩ := Option.map_eq_some'.1 h
    obtain ⟨_, hq, hlt⟩ := (find?_range_eq_some _ _ _).1 hi
    refine ⟨(isPeakLag_map_iff val n i).2 ((isPeakAt_map_iff val n i).1 hq), ?_⟩
    intro q hqp hpeak
    obtain ⟨hq1, _⟩ := isPeakLag_map_pos val n q hpeak
    have hqp' : q < i + 1 := hqp
    have hj := hlt (q - 1) (by omega)
    rw [← hq1] at hpeak
    have := (isPeakAt_map_iff val n (q - 1)).2 ((isPeakLag_map_iff val n (q - 1)).1 hpeak)
    rw [hj] at this
    cases this
  · rintro ⟨hpeak, hmin⟩
    obtain ⟨hp1, hpn⟩ := isPeakLag_map_pos val n p hpeak
    apply Option.map_eq_some'.2
    refine ⟨p - 1, ?_, hp1⟩
    rw [find?_range_eq_some]
    refine ⟨hpn, ?_, ?_⟩
    · apply (isPeakAt_map_iff val n (p - 1)).2
      apply (isPeakLag_map_iff val n (p - 1)).1
      rw [hp1]
      exact hpeak
    · intro j hj
      by_contra hne
      have htrue : isPeakAt ((List.range n).map fun j => { lag := j + 1, value := val j }) j
          { lag := j + 1, value := val j } = true := by
        simpa using hne
      exact hmin (j + 1) (by omega)
        ((isPeakLag_map_iff val n j).2 ((isPeakAt_map_iff val n j).1 htrue))

theorem selectPeriod_map_none_iff (val : ℕ → Option ℚ) (n : ℕ) :
    selectPeriod ((List.range n).map fun j => { lag := j + 1, value := val j }) = none ↔
      ∀ q, ¬ IsPeakLag ((List.range n).map fun j => { lag := j + 1, value := val j }) q := by
  rw [selectPeriod_map, Option.map_eq_none', find?_range_eq_none]
  constructor
  · intro h q hpeak
    obtain ⟨hq1, hqn⟩ := isPeakLag_map_pos val n q hpeak
    have hj := h (q - 1) hqn
    rw [← hq1] at hpeak
    have := (isPeakAt_map_iff val n (q - 1)).2 ((isPeakLag_map_iff val n (q - 1)).1 hpeak)
    rw [hj] at this
    cases this
  · intro h j _
    by_contra hne
    have htrue : isPeakAt ((List.range n).map fun j => { lag := j + 1, value := val j }) j
        { lag := j + 1, value := val j } = true := by
      simpa using hne
    exact h (j + 1) ((isPeakLag_map_iff val n j).2 ((isPeakAt_map_iff val n j).1 htrue))

theorem eq_map_of_lags (ac : List AutocorrEntry)
    (h : ac.map AutocorrEntry.lag = List.range' 1 ac.length) :
    ac = (List.range ac.length).map fun j =>
      { lag := j + 1, value := (ac.get? j).bind AutocorrEntry.value } := by
  apply List.ext_getElem
  · simp
  · intro i h1 h2
    have hlag : ac[i].lag = i + 1 := by
      have h3 : (ac.map AutocorrEntry.lag)[i]? = (List.range' 1 ac.length)[i]? := by rw [h]
      rw [List.getElem?_map, List.getElem?_range' 1 1 h1, List.getElem?_eq_getElem h1] at h3
      simp only [Option.map_some', Option.some.injEq] at h3
      omega
    rw [List.getElem_map, List.getElem_range]
    cases hac : ac[i] with
    | mk lag value =>
      rw [hac] at hlag
      simp only at hlag
      subst hlag
      simp [List.getElem?_eq_getElem h1, hac]

theorem selectPeriod_some_iff (ac : List AutocorrEntry)
    (h : ac.map AutocorrEntry.lag = List.range' 1 ac.length) (p : ℕ) :
    selectPeriod ac = some p ↔ IsPeakLag ac p ∧ ∀ q < p, ¬ IsPeakLag ac q := by
  have hmap := selectPeriod_map_some_iff
    (fun j => (ac.get? j).bind AutocorrEntry.value) ac.length p
  rw [← eq_map_of_lags ac h] at hmap
  exact hmap

theorem selectPeriod_none_iff (ac : List AutocorrEntry)
    (h : ac.map AutocorrEntry.lag = List.range' 1 ac.length) :
    selectPeriod ac = none ↔ ∀ q, ¬ IsPeakLag ac q := by
  have hmap := selectPeriod_map_none_iff
    (fun j => (ac.get? j).bind AutocorrEntry.value) ac.length
  rw [← eq_map_of_lags ac h] at hmap
  exact hmap

theorem autocorrelogram_lags (data : List ℚ) (maxLag : ℕ) :
    (autocorrelogram data maxLag).map AutocorrEntry.lag =
      List.range' 1 (min maxLag (data.length / 2)) := by
  rw [autocorrelogram_eq, List.map_map, List.range'_eq_map_range]
  apply List.map_congr_left
  intro i _
  simp [Nat.add_comm]

/-- On the series `[2, 1, 0, 3, 0, 0, 0, 0, 0, 0]` the exact autocorrelation at lag
`3` is `3 / 10`, above both neighbours and above the double `0.3` of the source
(which is below `3 / 10`): the period is `3`. -/
theorem detectSeasonality_threshold_example :
    (detectSeasonality [2, 1, 0, 3, 0, 0, 0, 0, 0, 0] 24).autocorr.get? 2 =
        some { lag := 3, value := some (3 / 10) } ∧
    roundDouble (3 / 10) < 3 / 10 ∧
    (detectSeasonality [2, 1, 0, 3, 0, 0, 0, 0, 0, 0] 24).period = some 3 := by
  decide!

/-- Claim C6. For every series and `maxLag`, the autocorrelogram returned by
`detectSeasonality` lists the lags `1, ..., min(maxLag, floor(n / 2))` in
increasing order, each with the value
`(sum over i from lag to n - 1 of (x_i - mean)(x_{i - lag} - mean)) / (n * variance)`
(the value of exact arithmetic). The returned period is read off the returned
autocorrelogram: it is the smallest lag whose stored value is strictly greater
than the stored values at both neighbouring lags and strictly greater than the
constant `0.3`, and it is `null` exactly when no lag satisfies these conditions.
This selection rule holds for every array of entries with lags `1, ..., length`,
whatever its values are, and so for the values the program stores; and on every
value that is a double, being strictly greater than the constant `0.3` of the
source is being strictly greater than `3 / 10`. -/
theorem detectSeasonality_spec (data : List ℚ) (maxLag : ℕ) :
    (detectSeasonality data maxLag).autocorr.map AutocorrEntry.lag =
        List.range' 1 (min maxLag (data.length / 2)) ∧
    (∀ e ∈ (detectSeasonality data maxLag).autocorr, e.value = acfSpec data e.lag) ∧
    (detectSeasonality data maxLag).period =
        selectPeriod (detectSeasonality data maxLag).autocorr ∧
    (∀ ac : List AutocorrEntry, ac.map AutocorrEntry.lag = List.range' 1 ac.length →
      (∀ p, selectPeriod ac = some p ↔ IsPeakLag ac p ∧ ∀ q < p, ¬ IsPeakLag ac q) ∧
      (selectPeriod ac = none ↔ ∀ q, ¬ IsPeakLag ac q)) ∧
    (∀ p, (detectSeasonality data maxLag).period = some p ↔
      IsPeakLag (detectSeasonality data maxLag).autocorr p ∧
        ∀ q < p, ¬ IsPeakLag (detectSeasonality data maxLag).autocorr q) ∧
    ((detectSeasonality data maxLag).period = none ↔
      ∀ q, ¬ IsPeakLag (detectSeasonality data maxLag).autocorr q) ∧
    (∀ v : ℚ, roundDouble v = v → (roundDouble (3 / 10) < v ↔ 3 / 10 < v)) := by
  have hlags : (autocorrelogram data maxLag).map AutocorrEntry.lag =
      List.range' 1 (autocorrelogram data maxLag).length := by
    rw [autocorrelogram_lags]
    simp [autocorrelogram]
  refine ⟨autocorrelogram_lags data maxLag, ?_, rfl, ?_, ?_, ?_, double_gt_threshold_iff⟩
  · intro e he
    change e ∈ autocorrelogram data maxLag at he
    rw [autocorrelogram_eq] at he
    obtain ⟨i, _, rfl⟩ := List.mem_map.1 he
    rfl
  · intro ac hac
    exact ⟨selectPeriod_some_iff ac hac, selectPeriod_none_iff ac hac⟩
  · exact selectPeriod_some_iff (autocorrelogram data maxLag) hlags
  · exact selectPeriod_none_iff (autocorrelogram data maxLag) hlags

/-! ## The ranked model list of `runAnalysis` -/

theorem period_bounds (data : List ℚ) (maxLag p : ℕ)
    (h : (detectSeasonality data maxLag).period = some p) :
    2 ≤ p ∧ p + 1 ≤ min maxLag (data.length / 2) := by
  have := (period_eq_some_iff data maxLag p).1 h
  exact ⟨this.1.1, this.1.2.1⟩

theorem fittedModels_names (values : List ℚ) (trainRatio : ℚ) :
    (fittedModels values trainRatio).map ModelResult.name =
      ["Moyenne Mobile", "Régression Linéaire", "Lissage Exp. Simple", "Lissage de Holt"] ++
        if hwGate (detectSeasonality values 24).period
            (jsSlice values 0 (trainSizeOf values.length trainRatio)).length = true
        then ["Holt-Winters Additif", "Holt-Winters Multiplicatif"] else [] := by
  unfold fittedModels
  simp only [List.map_append, List.map_cons, List.map_nil]
  split <;> rfl

theorem hwGate_iff (values : List ℚ) (trainRatio : ℚ) (hr : 0 ≤ trainRatio) :
    hwGate (detectSeasonality values 24).period
        (jsSlice values 0 (trainSizeOf values.length trainRatio)).length = true ↔
      HoltWintersGate (analyse values trainRatio) := by
  have ht : 0 ≤ trainSizeOf values.length trainRatio :=
    trainSizeOf_nonneg _ _ hr
  have hlen : (jsSlice values 0 (trainSizeOf values.length trainRatio)).length =
      min (trainSizeOf values.length trainRatio).toNat values.length := by
    simp [jsSlice, sliceIndex, not_lt.2 ht]
  have hcast : (((trainSizeOf values.length trainRatio).toNat : ℕ) : ℚ) =
      ((trainSizeOf values.length trainRatio : ℤ) : ℚ) := by
    have := Int.toNat_of_nonneg ht
    exact_mod_cast this
  show _ ↔ ∃ p, (detectSeasonality values 24).period = some p ∧
    (p : ℚ) < ((trainSizeOf values.length trainRatio : ℤ) : ℚ) / 2
  rw [hlen]
  cases hper : (detectSeasonality values 24).period with
  | none => simp [hwGate]
  | some p =>
    obtain ⟨h2, hm⟩ := period_bounds values 24 p hper
    have hp0 : p ≠ 0 := by omega
    have hpn : 2 * p + 2 ≤ values.length := by
      have : min 24 (values.length / 2) ≤ values.length / 2 := min_le_right _ _
      omega
    have hpnq : (p : ℚ) < (values.length : ℚ) / 2 := by
      have : ((2 * p + 2 : ℕ) : ℚ) ≤ (values.length : ℚ) := by exact_mod_cast hpn
      push_cast at this
      linarith
    simp only [hwGate, hp0, ne_eq, not_false_eq_true, decide_True, Bool.true_and,
      decide_eq_true_eq, Option.some.injEq, exists_eq_left']
    rcases le_total (trainSizeOf values.length trainRatio).toNat values.length with hle | hle
    · rw [min_eq_left hle, hcast]
    · rw [min_eq_right hle]
      have hq : (values.length : ℚ) ≤ ((trainSizeOf values.length trainRatio : ℤ) : ℚ) := by
        rw [← hcast]
        exact_mod_cast hle
      constructor
      · intro _
        linarith
      · intro _
        exact hpnq

/-- Claim C7. In the result of a run of `runAnalysis` (with a non-negative
`trainRatio`), the two Holt-Winters models are in the ranked model list if and
only if a seasonal period was detected and `period < trainSize / 2`; then the
list holds the six models, and otherwise exactly the four models Moving
Average, Linear Regression, Simple Exponential Smoothing and Holt. -/
theorem holtWinters_gate (values : List ℚ) (trainRatio : ℚ) (hr : 0 ≤ trainRatio) :
    (("Holt-Winters Additif" ∈ (analyse values trainRatio).models.map ModelResult.name ∧
      "Holt-Winters Multiplicatif" ∈ (analyse values trainRatio).models.map ModelResult.name) ↔
        HoltWintersGate (analyse values trainRatio)) ∧
    (("Holt-Winters Additif" ∈ (analyse values trainRatio).models.map ModelResult.name ∨
      "Holt-Winters Multiplicatif" ∈ (analyse values trainRatio).models.map ModelResult.name) ↔
        HoltWintersGate (analyse values trainRatio)) ∧
    (HoltWintersGate (analyse values trainRatio) →
      ((analyse values trainRatio).models.map ModelResult.name).Perm
        ["Moyenne Mobile", "Régression Linéaire", "Lissage Exp. Simple", "Lissage de Holt",
          "Holt-Winters Additif", "Holt-Winters Multiplicatif"]) ∧
    (¬ HoltWintersGate (analyse values trainRatio) →
      ((analyse values trainRatio).models.map ModelResult.name).Perm
        ["Moyenne Mobile", "Régression Linéaire", "Lissage Exp. Simple", "Lissage de Holt"]) := by
  have hperm : ((analyse values trainRatio).models.map ModelResult.name).Perm
      ((fittedModels values trainRatio).map ModelResult.name) :=
    (List.perm_insertionSort rmseLe _).map _
  have hnames := fittedModels_names values trainRatio
  have hgate := hwGate_iff values trainRatio hr
  by_cases hg : HoltWintersGate (analyse values trainRatio)
  · rw [if_pos (hgate.2 hg)] at hnames
    rw [hnames] at hperm
    have hmem := hperm.mem_iff (a := "Holt-Winters Additif")
    have hmem' := hperm.mem_iff (a := "Holt-Winters Multiplicatif")
    refine ⟨⟨fun _ => hg, fun _ => ⟨hmem.2 (by simp), hmem'.2 (by simp)⟩⟩,
      ⟨fun _ => hg, fun _ => Or.inl (hmem.2 (by simp))⟩, fun _ => hperm, fun h => absurd hg h⟩
  · rw [if_neg (fun h => hg (hgate.1 h)), List.append_nil] at hnames
    rw [hnames] at hperm
    have hmem := hperm.mem_iff (a := "Holt-Winters Additif")
    have hmem' := hperm.mem_iff (a := "Holt-Winters Multiplicatif")
    have hno : ¬ "Holt-Winters Additif" ∈
        (analyse values trainRatio).models.map ModelResult.name := by
      rw [hmem]
      decide
    have hno' : ¬ "Holt-Winters Multiplicatif" ∈
        (analyse values trainRatio).models.map ModelResult.name := by
      rw [hmem']
      decide
    refine ⟨⟨fun h => absurd h.1 hno, fun h => absurd h hg⟩,
      ⟨fun h => ?_, fun h => absurd h hg⟩, fun h => absurd h hg, fun _ => hperm⟩
    rcases h with h | h
    · exact absurd h hno
    · exact absurd h hno'

theorem holtWinters_gate_witness :
    (0 : ℚ) ≤ 4 / 5 ∧
    (("Holt-Winters Additif" ∈ (analyse seasonalSeries (4 / 5)).models.map ModelResult.name ∧
      "Holt-Winters Multiplicatif" ∈
        (analyse seasonalSeries (4 / 5)).models.map ModelResult.name) ↔
        HoltWintersGate (analyse seasonalSeries (4 / 5))) ∧
    (("Holt-Winters Additif" ∈ (analyse seasonalSeries (4 / 5)).models.map ModelResult.name ∨
      "Holt-Winters Multiplicatif" ∈
        (analyse seasonalSeries (4 / 5)).models.map ModelResult.name) ↔
        HoltWintersGate (analyse seasonalSeries (4 / 5))) ∧
    (HoltWintersGate (analyse seasonalSeries (4 / 5)) →
      ((analyse seasonalSeries (4 / 5)).models.map ModelResult.name).Perm
        ["Moyenne Mobile", "Régression Linéaire", "Lissage Exp. Simple", "Lissage de Holt",
          "Holt-Winters Additif", "Holt-Winters Multiplicatif"]) ∧
    (¬ HoltWintersGate (analyse seasonalSeries (4 / 5)) →
      ((analyse seasonalSeries (4 / 5)).models.map ModelResult.name).Perm
        ["Moyenne Mobile", "Régression Linéaire", "Lissage Exp. Simple", "Lissage de Holt"]) :=
  ⟨by norm_num, holtWinters_gate seasonalSeries (4 / 5) (by norm_num)⟩

theorem calculateMetrics_radicand_nonneg (actual : List ℚ) (predicted : List (Option ℚ))
    (m : Metrics) (h : calculateMetrics actual predicted = some m) : 0 ≤ m.rmse.radicand := by
  rw [calculateMetrics_eq] at h
  split at h
  · cases h
  · cases h
    apply div_nonneg
    · apply List.sum_nonneg
      intro x hx
      obtain ⟨ap, _, rfl⟩ := List.mem_map.1 hx
      exact mul_self_nonneg _
    · positivity

/-- The sign of the comparator `a.metrics.rmse - b.metrics.rmse` on two metric
sets with non-negative mean squared errors is decided on the radicands. -/
theorem sqrt_sub_nonpos_iff (x y : ℚ) (hy : 0 ≤ y) :
    Real.sqrt (x : ℝ) - Real.sqrt (y : ℝ) ≤ 0 ↔ x ≤ y := by
  have hy' : (0 : ℝ) ≤ (y : ℝ) := by exact_mod_cast hy
  rw [sub_nonpos, Real.sqrt_le_sqrt_iff hy']
  exact_mod_cast Iff.rfl

theorem rmseLe_total (a b : ModelResult) : rmseLe a b ∨ rmseLe b a := by
  unfold rmseLe
  cases a.metrics <;> cases b.metrics <;> simp
  exact le_total _ _

theorem rmseLe_trans (a b c : ModelResult) (hb : b.metrics ≠ none)
    (hab : rmseLe a b) (hbc : rmseLe b c) : rmseLe a c := by
  unfold rmseLe at *
  cases ha : a.metrics <;> cases hb' : b.metrics <;> cases hc : c.metrics <;>
    simp_all
  exact le_trans hab hbc

theorem rmseLe_real (a b : ModelResult) (h : rmseLe a b) : RmseLeReal a b := by
  intro ma mb ha hb
  unfold rmseLe at h
  rw [ha, hb] at h
  apply Real.sqrt_le_sqrt
  exact_mod_cast h

theorem orderedInsert_pairwise (a : ModelResult) (l : List ModelResult)
    (hl : ∀ b ∈ l, b.metrics ≠ none) (hs : l.Pairwise rmseLe) :
    (l.orderedInsert rmseLe a).Pairwise rmseLe := by
  induction l with
  | nil => simp
  | cons b l ih =>
    have hsl := (List.pairwise_cons.1 hs).2
    have hbl := (List.pairwise_cons.1 hs).1
    by_cases h : rmseLe a b
    · rw [List.orderedInsert, if_pos h]
      refine List.pairwise_cons.2 ⟨?_, hs⟩
      intro c hc
      rcases List.mem_cons.1 hc with rfl | hc
      · exact h
      · exact rmseLe_trans a b c (hl b (List.mem_cons_self _ _)) h (hbl c hc)
    · rw [List.orderedInsert, if_neg h]
      refine List.pairwise_cons.2 ⟨?_, ih (fun c hc => hl c (List.mem_cons_of_mem _ hc)) hsl⟩
      intro c hc
      rcases (List.mem_orderedInsert rmseLe).1 hc with rfl | hc
      · exact (rmseLe_total c b).resolve_left h
      · exact hbl c hc

theorem sortModels_pairwise (l : List ModelResult) (hl : ∀ b ∈ l, b.metrics ≠ none) :
    (sortModels l).Pairwise rmseLe := by
  induction l with
  | nil => simp [sortModels]
  | cons a l ih =>
    have hl' : ∀ b ∈ l, b.metrics ≠ none := fun b hb => hl b (List.mem_cons_of_mem _ hb)
    have hmem : ∀ b ∈ sortModels l, b.metrics ≠ none :=
      fun b hb => hl' b ((mem_sortModels b l).1 hb)
    exact orderedInsert_pairwise a (sortModels l) hmem (ih hl')

theorem sortModels_sorted_real (l : List ModelResult) (hl : ∀ b ∈ l, b.metrics ≠ none) :
    (sortModels l).Pairwise RmseLeReal :=
  (sortModels_pairwise l hl).imp fun {a b} h => rmseLe_real a b h

theorem fittedModels_radicand_nonneg (values : List ℚ) (trainRatio : ℚ) (m : ModelResult)
    (hm : m ∈ fittedModels values trainRatio) (mm : Metrics) (hmm : m.metrics = some mm) :
    0 ≤ mm.rmse.radicand := by
  simp only [fittedModels, List.mem_append, List.mem_cons, List.mem_singleton,
    List.not_mem_nil, or_false] at hm
  rcases hm with (rfl | rfl | rfl | rfl) | hm
  · exact calculateMetrics_radicand_nonneg _ _ mm hmm
  · exact calculateMetrics_radicand_nonneg _ _ mm hmm
  · exact calculateMetrics_radicand_nonneg _ _ mm hmm
  · exact calculateMetrics_radicand_nonneg _ _ mm hmm
  · split at hm
    · simp only [List.mem_cons, List.mem_singleton, List.not_mem_nil, or_false] at hm
      rcases hm with rfl | rfl
      · exact calculateMetrics_radicand_nonneg _ _ mm hmm
      · exact calculateMetrics_radicand_nonneg _ _ mm hmm
    · simp at hm

theorem fittedModels_names_order (values : List ℚ) (trainRatio : ℚ) :
    (fittedModels values trainRatio).map ModelResult.name <+:
      ["Moyenne Mobile", "Régression Linéaire", "Lissage Exp. Simple", "Lissage de Holt",
        "Holt-Winters Additif", "Holt-Winters Multiplicatif"] := by
  rw [fittedModels_names]
  split
  · exact List.prefix_refl _
  · exact ⟨["Holt-Winters Additif", "Holt-Winters Multiplicatif"], by simp⟩

theorem sortModels_head_min (l : List ModelResult) (hl : ∀ b ∈ l, b.metrics ≠ none)
    (m0 : ModelResult) (h0 : (sortModels l).head? = some m0) :
    ∀ m ∈ l, RmseLeReal m0 m := by
  intro m hm
  have hs := sortModels_sorted_real l hl
  have hm' := (mem_sortModels m l).2 hm
  cases hsl : sortModels l with
  | nil => rw [hsl] at h0; cases h0
  | cons x xs =>
    rw [hsl] at h0 hs hm'
    cases h0
    rcases List.mem_cons.1 hm' with rfl | hx
    · intro ma mb ha hb
      rw [ha] at hb
      cases hb
      exact le_refl _
    · exact (List.pairwise_cons.1 hs).1 m hx

/-- Claim C8. When every fitted model has a real RMSE, the model list of the result
of `runAnalysis` is a permutation of the fitted models, sorted non-decreasing
by RMSE; two models with equal RMSE (more generally, with the first one's
RMSE at most the second's) keep the order in which they were inserted, which
is Moving Average, Linear Regression, SES, Holt, Holt-Winters additive,
Holt-Winters multiplicative; and `bestModel` is the element at index `0`,
whose RMSE is the minimum over the fitted models. -/
theorem models_ranked (values : List ℚ) (trainRatio : ℚ)
    (hreal : ∀ m ∈ fittedModels values trainRatio, m.metrics ≠ none) :
    (analyse values trainRatio).models.Perm (fittedModels values trainRatio) ∧
    (analyse values trainRatio).models.Pairwise RmseLeReal ∧
    (fittedModels values trainRatio).map ModelResult.name <+:
      ["Moyenne Mobile", "Régression Linéaire", "Lissage Exp. Simple", "Lissage de Holt",
        "Holt-Winters Additif", "Holt-Winters Multiplicatif"] ∧
    (∀ a b ma mb, [a, b].Sublist (fittedModels values trainRatio) →
      a.metrics = some ma → b.metrics = some mb →
      Real.sqrt (ma.rmse.radicand : ℝ) ≤ Real.sqrt (mb.rmse.radicand : ℝ) →
        [a, b].Sublist (analyse values trainRatio).models) ∧
    ∃ best, (analyse values trainRatio).bestModel = some best ∧
      (analyse values trainRatio).models.get? 0 = some best ∧
      ∀ m ∈ fittedModels values trainRatio, RmseLeReal best m := by
  refine ⟨List.perm_insertionSort rmseLe _, sortModels_sorted_real _ hreal,
    fittedModels_names_order values trainRatio, ?_, ?_⟩
  · intro a b ma mb hsub ha hb hle
    apply List.pair_sublist_insertionSort _ hsub
    have hbmem : b ∈ fittedModels values trainRatio := hsub.subset (by simp)
    have hnn := fittedModels_radicand_nonneg values trainRatio b hbmem mb hb
    have := (sqrt_sub_nonpos_iff ma.rmse.radicand mb.rmse.radicand hnn).1 (sub_nonpos.2 hle)
    unfold rmseLe
    rw [ha, hb]
    exact this
  · cases hsl : sortModels (fittedModels values trainRatio) with
    | nil =>
      have := congrArg List.length hsl
      rw [sortModels, List.length_insertionSort] at this
      simp [fittedModels] at this
    | cons x xs =>
      have hhead : (sortModels (fittedModels values trainRatio)).head? = some x := by
        rw [hsl]
        rfl
      refine ⟨x, hhead, ?_, sortModels_head_min _ hreal x hhead⟩
      show (sortModels (fittedModels values trainRatio)).get? 0 = some x
      rw [hsl]
      rfl

theorem seasonalSeries_metrics_real :
    ∀ m ∈ fittedModels seasonalSeries (4 / 5), m.metrics ≠ none := by
  decide!

theorem models_ranked_witness :
    (∀ m ∈ fittedModels seasonalSeries (4 / 5), m.metrics ≠ none) ∧
    (analyse seasonalSeries (4 / 5)).models.Perm (fittedModels seasonalSeries (4 / 5)) ∧
    (analyse seasonalSeries (4 / 5)).models.Pairwise RmseLeReal ∧
    (fittedModels seasonalSeries (4 / 5)).map ModelResult.name <+:
      ["Moyenne Mobile", "Régression Linéaire", "Lissage Exp. Simple", "Lissage de Holt",
        "Holt-Winters Additif", "Holt-Winters Multiplicatif"] ∧
    (∀ a b ma mb, [a, b].Sublist (fittedModels seasonalSeries (4 / 5)) →
      a.metrics = some ma → b.metrics = some mb →
      Real.sqrt (ma.rmse.radicand : ℝ) ≤ Real.sqrt (mb.rmse.radicand : ℝ) →
        [a, b].Sublist (analyse seasonalSeries (4 / 5)).models) ∧
    ∃ best, (analyse seasonalSeries (4 / 5)).bestModel = some best ∧
      (analyse seasonalSeries (4 / 5)).models.get? 0 = some best ∧
      ∀ m ∈ fittedModels seasonalSeries (4 / 5), RmseLeReal best m :=
  ⟨seasonalSeries_metrics_real, models_ranked seasonalSeries (4 / 5) seasonalSeries_metrics_real⟩

/-! ## End-to-end scenarios -/

theorem scenario_metrics_real :
    ∀ m ∈ fittedModels scenarioSeries (4 / 5), m.metrics ≠ none := by
  decide!

theorem scenario_eval :
    trainSizeOf scenarioSeries.length (4 / 5) = 9 ∧
    (detectSeasonality scenarioSeries 24).autocorr.map AutocorrEntry.lag = [1, 2, 3, 4, 5, 6] ∧
    (detectSeasonality scenarioSeries 24).period = none ∧
    (fittedModels scenarioSeries (4 / 5)).map ModelResult.name =
      ["Moyenne Mobile", "Régression Linéaire", "Lissage Exp. Simple", "Lissage de Holt"] := by
  decide!

/-- Claim C9. For the series `[10,12,13,12,15,16,14,17,19,18,20,22]` with
`trainRatio = 0.8`, `runAnalysis` computes `trainSize = 9`; `detectSeasonality`
computes the lags `1, ..., 6` and reports no period, no lag being a strict local
maximum above `0.3`; and the model list of the result has exactly four
entries, the four models other than Holt-Winters, each with a real RMSE,
sorted non-decreasing by RMSE. -/
theorem scenario_twelve_points :
    (analyse scenarioSeries (4 / 5)).trainSize = 9 ∧
    (analyse scenarioSeries (4 / 5)).seasonalityData.map AutocorrEntry.lag =
      [1, 2, 3, 4, 5, 6] ∧
    (analyse scenarioSeries (4 / 5)).seasonality = none ∧
    (∀ q, ¬ IsCandidatePeriod scenarioSeries 24 q) ∧
    (analyse scenarioSeries (4 / 5)).models.length = 4 ∧
    ((analyse scenarioSeries (4 / 5)).models.map ModelResult.name).Perm
      ["Moyenne Mobile", "Régression Linéaire", "Lissage Exp. Simple", "Lissage de Holt"] ∧
    (∀ m ∈ (analyse scenarioSeries (4 / 5)).models, m.metrics ≠ none) ∧
    (analyse scenarioSeries (4 / 5)).models.Pairwise RmseLeReal := by
  obtain ⟨ht, hlags, hper, hnames⟩ := scenario_eval
  have hperm : (analyse scenarioSeries (4 / 5)).models.Perm
      (fittedModels scenarioSeries (4 / 5)) := List.perm_insertionSort rmseLe _
  refine ⟨ht, hlags, hper, (period_eq_none_iff scenarioSeries 24).1 hper, ?_, ?_, ?_,
    sortModels_sorted_real _ scenario_metrics_real⟩
  · rw [hperm.length_eq, ← List.length_map (fittedModels scenarioSeries (4 / 5)) ModelResult.name,
      hnames]
    rfl
  · rw [← hnames]
    exact hperm.map _
  · intro m hm
    exact scenario_metrics_real m (hperm.mem_iff.1 hm)

/-- Claim C10. On a series of fewer than ten observations `runAnalysis` reports
the insufficient-data condition and nothing else happens: the result, the
loading flag, the data, the ratio and the timer queue are what they were, so
that no split, statistic or model is computed. On a series of at least ten
observations the run proceeds: the loading flag is raised, the callback is
registered with the current data and ratio, and once a sole pending callback
fires the result is the analysis of the series and the flag is lowered. -/
theorem runAnalysis_guard (s : AppState) :
    (s.data.length < 10 →
      (runAnalysis s).log = s.log ++ [LogEvent.insufficientData] ∧
      (runAnalysis s).results = s.results ∧
      (runAnalysis s).loading = s.loading ∧
      (runAnalysis s).timers = s.timers ∧
      (runAnalysis s).data = s.data ∧
      (runAnalysis s).trainRatio = s.trainRatio) ∧
    (10 ≤ s.data.length →
      (runAnalysis s).loading = true ∧
      (runAnalysis s).results = s.results ∧
      (runAnalysis s).timers = s.timers ++ [{ data := s.data, trainRatio := s.trainRatio }] ∧
      LogEvent.insufficientData ∉ (runAnalysis s).log.drop s.log.length ∧
      (s.timers = [] →
        (fireTimer (runAnalysis s)).results =
          some (analyse (s.data.map Observation.value) s.trainRatio) ∧
        (fireTimer (runAnalysis s)).loading = false ∧
        (fireTimer (runAnalysis s)).timers = [])) := by
  constructor
  · intro h
    simp [runAnalysis, h]
  · intro h
    have h' : ¬ s.data.length < 10 := by omega
    refine ⟨by simp [runAnalysis, h'], by simp [runAnalysis, h'], by simp [runAnalysis, h'],
      by simp [runAnalysis, h'], ?_⟩
    intro ht
    simp [runAnalysis, h', fireTimer, ht]

theorem runAnalysis_guard_witness :
    shortState.data.length < 10 ∧ 10 ≤ scenarioState.data.length ∧
    ((runAnalysis shortState).log = shortState.log ++ [LogEvent.insufficientData] ∧
      (runAnalysis shortState).results = shortState.results ∧
      (runAnalysis shortState).loading = shortState.loading ∧
      (runAnalysis shortState).timers = shortState.timers ∧
      (runAnalysis shortState).data = shortState.data ∧
      (runAnalysis shortState).trainRatio = shortState.trainRatio) ∧
    ((runAnalysis scenarioState).loading = true ∧
      (runAnalysis scenarioState).results = scenarioState.results ∧
      (runAnalysis scenarioState).timers = scenarioState.timers ++
        [{ data := scenarioState.data, trainRatio := scenarioState.trainRatio }] ∧
      LogEvent.insufficientData ∉ (runAnalysis scenarioState).log.drop scenarioState.log.length ∧
      (scenarioState.timers = [] →
        (fireTimer (runAnalysis scenarioState)).results =
          some (analyse (scenarioState.data.map Observation.value) scenarioState.trainRatio) ∧
        (fireTimer (runAnalysis scenarioState)).loading = false ∧
        (fireTimer (runAnalysis scenarioState)).timers = [])) :=
  ⟨by decide, by decide, (runAnalysis_guard shortState).1 (by decide),
    (runAnalysis_guard scenarioState).2 (by decide)⟩

/-! ## Train/test split -/

theorem fittedModels_metrics (values : List ℚ) (trainRatio : ℚ) (m : ModelResult)
    (hm : m ∈ fittedModels values trainRatio) :
    m.metrics = calculateMetrics (jsSliceFrom values (trainSizeOf values.length trainRatio))
      (jsSliceFrom m.predictions (trainSizeOf values.length trainRatio)) := by
  simp only [fittedModels, List.mem_append, List.mem_cons, List.mem_singleton,
    List.not_mem_nil, or_false] at hm
  rcases hm with (rfl | rfl | rfl | rfl) | hm
  · rfl
  · simp
  · rfl
  · rfl
  · split at hm
    · simp only [List.mem_cons, List.mem_singleton, List.not_mem_nil, or_false] at hm
      rcases hm with rfl | rfl
      · rfl
      · rfl
    · simp at hm

theorem trainSizeOf_bounds (n : ℕ) (trainRatio : ℚ) (hn : 10 ≤ n)
    (h1 : 1 / 2 ≤ trainRatio) (h2 : trainRatio ≤ 9 / 10) :
    4 ≤ trainSizeOf n trainRatio ∧ trainSizeOf n trainRatio < n := by
  have hn' : (10 : ℚ) ≤ n := by exact_mod_cast hn
  obtain ⟨hlo, hhi⟩ := roundDouble_product n trainRatio hn h1
  have hy1 : (5 : ℚ) ≤ n * trainRatio := by nlinarith
  have hy2 : (n : ℚ) * trainRatio ≤ 9 / 10 * n := by nlinarith
  constructor
  · unfold trainSizeOf
    apply Int.le_floor.2
    norm_num at hlo ⊢
    linarith
  · unfold trainSizeOf
    apply Int.floor_lt.2
    norm_num at hhi ⊢
    linarith

/-- Claim C11, refuted as stated. The code floors the double product
`data.length * trainRatio`, not the exact one. With ninety observations and the
slider at `0.7` the product is `62.99999999999999` and `trainSize` is `62`,
while `floor(90 * 0.7) = 63`; with ten observations the double `0.7` gives the
product `7` and `trainSize = 7`, while the exact product of `10` and that double
is below `7` and its floor is `6`. -/
theorem trainSize_floor_counterexample :
    (analyse ((List.range 90).map fun (i : ℕ) => (i : ℚ)) (7 / 10)).trainSize = 62 ∧
    ⌊(((List.range 90).map fun (i : ℕ) => (i : ℚ)).length : ℚ) * (7 / 10)⌋ = 63 ∧
    (analyse ((List.range 10).map fun (i : ℕ) => (i : ℚ)) (roundDouble (7 / 10))).trainSize =
      7 ∧
    ⌊(((List.range 10).map fun (i : ℕ) => (i : ℚ)).length : ℚ) * roundDouble (7 / 10)⌋ = 6 := by
  decide!

/-- Claim C11, amended. For every series of length `n ≥ 10` and every
`trainRatio` in `[0.5, 0.9]`, `runAnalysis` uses as `trainSize` the floor of the
double product `data.length * trainRatio` (the ratio and the product each
rounded to the nearest double), which lies between
`n * trainRatio * (1 - 2 ^ (-51)) - 1` and `n * trainRatio * (1 + 2 ^ (-51))`; the
training segment is `values[0, trainSize)` (on which the linear regression is
fit) and the test segment `values[trainSize, n)` (on which every model is
scored); the training segment followed by the test segment is the original
sequence, the two lengths add up to `n`, and `1 ≤ trainSize < n`. -/
theorem train_test_split (values : List ℚ) (trainRatio : ℚ) (hn : 10 ≤ values.length)
    (h1 : 1 / 2 ≤ trainRatio) (h2 : trainRatio ≤ 9 / 10) :
    (analyse values trainRatio).trainSize =
      ⌊roundDouble ((values.length : ℚ) * roundDouble trainRatio)⌋ ∧
    (values.length : ℚ) * trainRatio * (1 - 1 / 2 ^ 51) - 1 <
      ((analyse values trainRatio).trainSize : ℚ) ∧
    ((analyse values trainRatio).trainSize : ℚ) ≤
      (values.length : ℚ) * trainRatio * (1 + 1 / 2 ^ 51) ∧
    1 ≤ (analyse values trainRatio).trainSize ∧
    (analyse values trainRatio).trainSize < values.length ∧
    jsSlice values 0 (analyse values trainRatio).trainSize =
      values.take (analyse values trainRatio).trainSize.toNat ∧
    jsSliceFrom values (analyse values trainRatio).trainSize =
      values.drop (analyse values trainRatio).trainSize.toNat ∧
    jsSlice values 0 (analyse values trainRatio).trainSize ++
      jsSliceFrom values (analyse values trainRatio).trainSize = values ∧
    ((jsSlice values 0 (analyse values trainRatio).trainSize).length : ℤ) =
      (analyse values trainRatio).trainSize ∧
    (jsSlice values 0 (analyse values trainRatio).trainSize).length +
      (jsSliceFrom values (analyse values trainRatio).trainSize).length = values.length ∧
    (∀ m ∈ fittedModels values trainRatio,
      m.metrics = calculateMetrics (jsSliceFrom values (analyse values trainRatio).trainSize)
        (jsSliceFrom m.predictions (analyse values trainRatio).trainSize)) ∧
    (∀ m ∈ fittedModels values trainRatio, m.name = "Régression Linéaire" →
      m.predictions = (List.range values.length).map fun (i : ℕ) =>
        (linearRegression
          ((List.range (jsSlice values 0 (analyse values trainRatio).trainSize).length).map
            fun (i : ℕ) => (i : ℚ))
          (jsSlice values 0 (analyse values trainRatio).trainSize)).predict (i : ℚ)) := by
  have hts : (analyse values trainRatio).trainSize = trainSizeOf values.length trainRatio :=
    rfl
  rw [hts]
  obtain ⟨h5, hlt⟩ := trainSizeOf_bounds values.length trainRatio hn h1 h2
  obtain ⟨hlo, hhi⟩ := roundDouble_product values.length trainRatio hn h1
  have hfl1 : ((trainSizeOf values.length trainRatio : ℤ) : ℚ) ≤
      roundDouble ((values.length : ℚ) * roundDouble trainRatio) := Int.floor_le _
  have hfl2 : roundDouble ((values.length : ℚ) * roundDouble trainRatio) <
      ((trainSizeOf values.length trainRatio : ℤ) : ℚ) + 1 := Int.lt_floor_add_one _
  have ht0 : ¬ trainSizeOf values.length trainRatio < 0 := by omega
  have hle : (trainSizeOf values.length trainRatio).toNat ≤ values.length := by omega
  have hidx : sliceIndex values.length (trainSizeOf values.length trainRatio) =
      (trainSizeOf values.length trainRatio).toNat := by
    simp only [sliceIndex, if_neg ht0]
    exact min_eq_left hle
  have h0 : sliceIndex values.length 0 = 0 := by simp [sliceIndex]
  have htake : jsSlice values 0 (trainSizeOf values.length trainRatio) =
      values.take (trainSizeOf values.length trainRatio).toNat := by
    simp only [jsSlice, hidx, h0, List.drop_zero]
  have hdrop : jsSliceFrom values (trainSizeOf values.length trainRatio) =
      values.drop (trainSizeOf values.length trainRatio).toNat := by
    simp only [jsSliceFrom, hidx]
  refine ⟨rfl, by linarith, by linarith, by omega, hlt, htake, hdrop, ?_, ?_, ?_,
    fun m hm => fittedModels_metrics values trainRatio m hm,
    fun m hm hname => fittedModels_lr values trainRatio m hm hname⟩
  · rw [htake, hdrop, List.take_append_drop]
  · rw [htake, List.length_take, min_eq_left hle]
    omega
  · rw [htake, hdrop, List.length_take, List.length_drop, min_eq_left hle]
    omega

theorem train_test_split_witness :
    10 ≤ scenarioSeries.length ∧ (1 / 2 : ℚ) ≤ 4 / 5 ∧ (4 / 5 : ℚ) ≤ 9 / 10 ∧
    (analyse scenarioSeries (4 / 5)).trainSize =
      ⌊roundDouble ((scenarioSeries.length : ℚ) * roundDouble (4 / 5))⌋ ∧
    (scenarioSeries.length : ℚ) * (4 / 5) * (1 - 1 / 2 ^ 51) - 1 <
      ((analyse scenarioSeries (4 / 5)).trainSize : ℚ) ∧
    ((analyse scenarioSeries (4 / 5)).trainSize : ℚ) ≤
      (scenarioSeries.length : ℚ) * (4 / 5) * (1 + 1 / 2 ^ 51) ∧
    1 ≤ (analyse scenarioSeries (4 / 5)).trainSize ∧
    (analyse scenarioSeries (4 / 5)).trainSize < scenarioSeries.length ∧
    jsSlice scenarioSeries 0 (analyse scenarioSeries (4 / 5)).trainSize =
      scenarioSeries.take (analyse scenarioSeries (4 / 5)).trainSize.toNat ∧
    jsSliceFrom scenarioSeries (analyse scenarioSeries (4 / 5)).trainSize =
      scenarioSeries.drop (analyse scenarioSeries (4 / 5)).trainSize.toNat ∧
    jsSlice scenarioSeries 0 (analyse scenarioSeries (4 / 5)).trainSize ++
      jsSliceFrom scenarioSeries (analyse scenarioSeries (4 / 5)).trainSize = scenarioSeries ∧
    ((jsSlice scenarioSeries 0 (analyse scenarioSeries (4 / 5)).trainSize).length : ℤ) =
      (analyse scenarioSeries (4 / 5)).trainSize ∧
    (jsSlice scenarioSeries 0 (analyse scenarioSeries (4 / 5)).trainSize).length +
      (jsSliceFrom scenarioSeries (analyse scenarioSeries (4 / 5)).trainSize).length =
        scenarioSeries.length ∧
    (∀ m ∈ fittedModels scenarioSeries (4 / 5),
      m.metrics = calculateMetrics
        (jsSliceFrom scenarioSeries (analyse scenarioSeries (4 / 5)).trainSize)
        (jsSliceFrom m.predictions (analyse scenarioSeries (4 / 5)).trainSize)) ∧
    (∀ m ∈ fittedModels scenarioSeries (4 / 5), m.name = "Régression Linéaire" →
      m.predictions = (List.range scenarioSeries.length).map fun (i : ℕ) =>
        (linearRegression
          ((List.range
            (jsSlice scenarioSeries 0 (analyse scenarioSeries (4 / 5)).trainSize).length).map
            fun (i : ℕ) => (i : ℚ))
          (jsSlice scenarioSeries 0 (analyse scenarioSeries (4 / 5)).trainSize)).predict
            (i : ℚ)) :=
  ⟨by decide, by norm_num, by norm_num,
    train_test_split scenarioSeries (4 / 5) (by decide) (by norm_num) (by norm_num)⟩

/-! ## Simple exponential smoothing -/

theorem length_sesLoop (alpha prev : ℚ) (xs : List ℚ) :
    (sesLoop alpha prev xs).length = xs.length := by
  induction xs generalizing prev with
  | nil => rfl
  | cons x xs ih => simp [sesLoop, ih]

theorem sesLoop_one (prev : ℚ) (xs : List ℚ) : sesLoop 1 prev xs = xs := by
  induction xs generalizing prev with
  | nil => rfl
  | cons x xs ih => simp [sesLoop, ih]

theorem sesLoop_zero (prev : ℚ) (xs : List ℚ) :
    sesLoop 0 prev xs = List.replicate xs.length prev := by
  induction xs generalizing prev with
  | nil => rfl
  | cons x xs ih => simp [sesLoop, ih, List.replicate_succ]

/-- Claim C14. On a non-empty series `simpleExponentialSmoothing` returns a
sequence of the same length, defined at every position; with `alpha = 1` it
is the series itself (`output[i] = series[i]` for every `i`), and with
`alpha = 0` every position holds `series[0]`. -/
theorem simpleExponentialSmoothing_spec (x0 : ℚ) (rest : List ℚ) (alpha : ℚ) :
    (simpleExponentialSmoothing (x0 :: rest) alpha).length = (x0 :: rest).length ∧
    (∀ i, i < (x0 :: rest).length →
      ∃ v, (simpleExponentialSmoothing (x0 :: rest) alpha).get? i = some (some v)) ∧
    (simpleExponentialSmoothing (x0 :: rest) alpha).get? 0 = some (some x0) ∧
    (∀ i, i < (x0 :: rest).length →
      (simpleExponentialSmoothing (x0 :: rest) 1).get? i =
        ((x0 :: rest).get? i).map some) ∧
    (∀ i, i < (x0 :: rest).length →
      (simpleExponentialSmoothing (x0 :: rest) 0).get? i = some (some x0)) := by
  refine ⟨by simp [simpleExponentialSmoothing, length_sesLoop], ?_, rfl, ?_, ?_⟩
  · intro i hi
    have hlen : i < (x0 :: sesLoop alpha x0 rest).length := by
      simpa [length_sesLoop] using hi
    refine ⟨(x0 :: sesLoop alpha x0 rest)[i], ?_⟩
    have hdef : simpleExponentialSmoothing (x0 :: rest) alpha =
        (x0 :: sesLoop alpha x0 rest).map some := rfl
    rw [hdef, List.get?_eq_getElem?, List.getElem?_map, List.getElem?_eq_getElem hlen]
    rfl
  · intro i _
    have hdef : simpleExponentialSmoothing (x0 :: rest) 1 = (x0 :: rest).map some := by
      simp only [simpleExponentialSmoothing, sesLoop_one]
    rw [hdef, List.get?_eq_getElem?, List.get?_eq_getElem?, List.getElem?_map]
  · intro i hi
    have hi' : i < rest.length + 1 := by simpa using hi
    have hrep : x0 :: List.replicate rest.length x0 = List.replicate (rest.length + 1) x0 :=
      (List.replicate_succ ..).symm
    simp only [simpleExponentialSmoothing, sesLoop_zero, hrep, List.map_replicate,
      List.get?_eq_getElem?]
    rw [List.getElem?_replicate]
    simp [hi']

/-! ## Statistics -/

theorem seriesVariance_nonneg (values : List ℚ) : 0 ≤ seriesVariance values := by
  unfold seriesVariance
  apply div_nonneg
  · apply List.sum_nonneg
    intro x hx
    obtain ⟨y, _, rfl⟩ := List.mem_map.1 hx
    positivity
  · positivity

/-- Claim C15. On a non-empty series of length `n`, `calculateStats` returns as
variance the population variance (the sum of the squared deviations from the
mean, divided by `n`), which is non-negative, and as standard deviation its
square root, so that `std ^ 2 = variance`. -/
theorem calculateStats_variance (values : List ℚ) (h : values ≠ []) :
    (calculateStats values).mean = some (values.sum / values.length) ∧
    (calculateStats values).variance =
      some ((values.map fun x => (x - values.sum / values.length) ^ 2).sum /
        (values.length : ℚ)) ∧
    (calculateStats values).variance = some (seriesVariance values) ∧
    0 ≤ seriesVariance values ∧
    (calculateStats values).std = some { radicand := seriesVariance values } ∧
    Real.sqrt (seriesVariance values : ℝ) ^ 2 = (seriesVariance values : ℝ) := by
  have hn : (values.length : ℚ) ≠ 0 := by
    have : values.length ≠ 0 := fun h0 => h (List.length_eq_zero.1 h0)
    exact_mod_cast this
  have hmean : (calculateStats values).mean = some (values.sum / values.length) := by
    simp [calculateStats, jsDiv, hn, reduceAdd_eq_sum]
  have hvar : (calculateStats values).variance = some (seriesVariance values) := by
    simp only [calculateStats, jsDiv, if_neg hn, Option.some_bind, reduceAdd_eq_sum,
      foldl_add_map (fun b => (b - values.sum / values.length) ^ 2), zero_add]
    rfl
  refine ⟨hmean, hvar, hvar, seriesVariance_nonneg values, ?_, ?_⟩
  · have : (calculateStats values).std = (calculateStats values).variance.map SqrtVal.mk := rfl
    rw [this, hvar]
    rfl
  · rw [Real.sq_sqrt]
    exact_mod_cast seriesVariance_nonneg values

theorem calculateStats_variance_witness :
    ([2, 4, 4, 4, 5, 5, 7, 9] : List ℚ) ≠ [] ∧
    (calculateStats [2, 4, 4, 4, 5, 5, 7, 9]).mean =
      some (([2, 4, 4, 4, 5, 5, 7, 9] : List ℚ).sum /
        ([2, 4, 4, 4, 5, 5, 7, 9] : List ℚ).length) ∧
    (calculateStats [2, 4, 4, 4, 5, 5, 7, 9]).variance =
      some ((([2, 4, 4, 4, 5, 5, 7, 9] : List ℚ).map fun x =>
        (x - ([2, 4, 4, 4, 5, 5, 7, 9] : List ℚ).sum /
          ([2, 4, 4, 4, 5, 5, 7, 9] : List ℚ).length) ^ 2).sum /
            (([2, 4, 4, 4, 5, 5, 7, 9] : List ℚ).length : ℚ)) ∧
    (calculateStats [2, 4, 4, 4, 5, 5, 7, 9]).variance =
      some (seriesVariance [2, 4, 4, 4, 5, 5, 7, 9]) ∧
    0 ≤ seriesVariance [2, 4, 4, 4, 5, 5, 7, 9] ∧
    (calculateStats [2, 4, 4, 4, 5, 5, 7, 9]).std =
      some { radicand := seriesVariance [2, 4, 4, 4, 5, 5, 7, 9] } ∧
    Real.sqrt (seriesVariance [2, 4, 4, 4, 5, 5, 7, 9] : ℝ) ^ 2 =
      (seriesVariance [2, 4, 4, 4, 5, 5, 7, 9] : ℝ) :=
  ⟨by decide, calculateStats_variance [2, 4, 4, 4, 5, 5, 7, 9] (by decide)⟩

/-! ## The season passed to the Holt-Winters models -/

theorem hwGate_some (seasonality : Option ℕ) (trainLength : ℕ)
    (h : hwGate seasonality trainLength = true) :
    ∃ p, seasonality = some p ∧ seasonality.getD 0 = p := by
  cases seasonality with
  | none => simp [hwGate] at h
  | some p => exact ⟨p, rfl, rfl⟩

theorem fittedModels_hw (values : List ℚ) (trainRatio : ℚ) (m : ModelResult)
    (hm : m ∈ fittedModels values trainRatio)
    (hname : m.name = "Holt-Winters Additif" ∨ m.name = "Holt-Winters Multiplicatif") :
    ∃ season, (detectSeasonality values 24).period = some season ∧
      (m.name = "Holt-Winters Additif" →
        m.predictions = holtWintersAdditive values (3 / 10) (1 / 10) (1 / 10) season) ∧
      (m.name = "Holt-Winters Multiplicatif" →
        m.predictions = holtWintersMultiplicative values (3 / 10) (1 / 10) (1 / 10) season) := by
  simp only [fittedModels, List.mem_append, List.mem_cons, List.mem_singleton,
    List.not_mem_nil, or_false] at hm
  rcases hm with (rfl | rfl | rfl | rfl) | hm
  · simp at hname
  · simp at hname
  · simp at hname
  · simp at hname
  · split at hm
    · rename_i hgate
      obtain ⟨p, hp, hget⟩ := hwGate_some _ _ hgate
      simp only [List.mem_cons, List.mem_singleton, List.not_mem_nil, or_false] at hm
      rcases hm with rfl | rfl
      · refine ⟨p, hp, fun _ => ?_, fun h => ?_⟩
        · simp only [hget]
        · simp at h
      · refine ⟨p, hp, fun h => ?_, fun _ => ?_⟩
        · simp at h
        · simp only [hget]
    · simp at hm

/-- Claim C16. Whenever `detectSeasonality` returns a period `p` for a series of
length `n`, `2 ≤ p ≤ min(maxLag, floor(n / 2)) - 1`: the first and the last
computed lag are never reported. Consequently every call of
`holtWintersAdditive` and `holtWintersMultiplicative` made by `runAnalysis`
passes a season with `2 ≤ season < n`, so that `data[season]` is within
bounds and the divisor `season` is not zero. -/
theorem period_season_bounds (values : List ℚ) (maxLag : ℕ) (trainRatio : ℚ) :
    (∀ p, (detectSeasonality values maxLag).period = some p →
      2 ≤ p ∧ p ≤ min maxLag (values.length / 2) - 1) ∧
    (∀ m ∈ fittedModels values trainRatio,
      m.name = "Holt-Winters Additif" ∨ m.name = "Holt-Winters Multiplicatif" →
      ∃ season, 2 ≤ season ∧ season < values.length ∧ (season : ℚ) ≠ 0 ∧
        (∃ v, values.get? season = some v) ∧
        (m.name = "Holt-Winters Additif" →
          m.predictions = holtWintersAdditive values (3 / 10) (1 / 10) (1 / 10) season) ∧
        (m.name = "Holt-Winters Multiplicatif" →
          m.predictions =
            holtWintersMultiplicative values (3 / 10) (1 / 10) (1 / 10) season)) := by
  constructor
  · intro p hp
    obtain ⟨h2, hm⟩ := period_bounds values maxLag p hp
    exact ⟨h2, by omega⟩
  · intro m hm hname
    obtain ⟨season, hper, hadd, hmult⟩ := fittedModels_hw values trainRatio m hm hname
    obtain ⟨h2, hmax⟩ := period_bounds values 24 season hper
    have hlt : season < values.length := by
      have : min 24 (values.length / 2) ≤ values.length / 2 := min_le_right _ _
      omega
    refine ⟨season, h2, hlt, ?_, ⟨values[season], ?_⟩, hadd, hmult⟩
    · have : season ≠ 0 := by omega
      exact_mod_cast this
    · rw [List.get?_eq_getElem?, List.getElem?_eq_getElem hlt]

theorem period_season_bounds_witness :
    (detectSeasonality seasonalSeries 24).period = some 3 ∧
    (∀ p, (detectSeasonality seasonalSeries 24).period = some p →
      2 ≤ p ∧ p ≤ min 24 (seasonalSeries.length / 2) - 1) ∧
    (∀ m ∈ fittedModels seasonalSeries (4 / 5),
      m.name = "Holt-Winters Additif" ∨ m.name = "Holt-Winters Multiplicatif" →
      ∃ season, 2 ≤ season ∧ season < seasonalSeries.length ∧ (season : ℚ) ≠ 0 ∧
        (∃ v, seasonalSeries.get? season = some v) ∧
        (m.name = "Holt-Winters Additif" →
          m.predictions =
            holtWintersAdditive seasonalSeries (3 / 10) (1 / 10) (1 / 10) season) ∧
        (m.name = "Holt-Winters Multiplicatif" →
          m.predictions =
            holtWintersMultiplicative seasonalSeries (3 / 10) (1 / 10) (1 / 10) season)) :=
  ⟨by decide!, period_season_bounds seasonalSeries 24 (4 / 5)⟩

/-! ## Range of the autocorrelations -/

theorem sum_map_eq_sum_range (f : ℚ → ℚ) (l : List ℚ) :
    (l.map f).sum = ∑ i in Finset.range l.length, f (l.getD i 0) := by
  induction l with
  | nil => simp
  | cons x l ih =>
    rw [List.map_cons, List.sum_cons, List.length_cons, Finset.sum_range_succ', ih]
    simp [add_comm]

theorem autocov_abs_le (d : ℕ → ℚ) (lag n : ℕ) :
    |∑ i in Finset.Ico lag n, d i * d (i - lag)| ≤ ∑ i in Finset.range n, d i ^ 2 := by
  have hsub1 : ∑ i in Finset.Ico lag n, d i ^ 2 ≤ ∑ i in Finset.range n, d i ^ 2 := by
    apply Finset.sum_le_sum_of_subset_of_nonneg
    · intro i hi
      exact Finset.mem_range.2 (Finset.mem_Ico.1 hi).2
    · intro i _ _
      positivity
  have hshift : ∑ i in Finset.Ico lag n, d (i - lag) ^ 2 =
      ∑ k in Finset.range (n - lag), d k ^ 2 := by
    rw [Finset.sum_Ico_eq_sum_range]
    apply Finset.sum_congr rfl
    intro k _
    rw [Nat.add_sub_cancel_left]
  have hsub2 : ∑ i in Finset.Ico lag n, d (i - lag) ^ 2 ≤ ∑ i in Finset.range n, d i ^ 2 := by
    rw [hshift]
    apply Finset.sum_le_sum_of_subset_of_nonneg
    · intro i hi
      have := Finset.mem_range.1 hi
      exact Finset.mem_range.2 (by omega)
    · intro i _ _
      positivity
  have hterm : ∀ i ∈ Finset.Ico lag n,
      |d i * d (i - lag)| ≤ (d i ^ 2 + d (i - lag) ^ 2) / 2 := by
    intro i _
    rw [abs_le]
    constructor
    · nlinarith [sq_nonneg (d i + d (i - lag))]
    · nlinarith [sq_nonneg (d i - d (i - lag))]
  calc |∑ i in Finset.Ico lag n, d i * d (i - lag)|
      ≤ ∑ i in Finset.Ico lag n, |d i * d (i - lag)| := Finset.abs_sum_le_sum_abs _ _
    _ ≤ ∑ i in Finset.Ico lag n, (d i ^ 2 + d (i - lag) ^ 2) / 2 := Finset.sum_le_sum hterm
    _ = (∑ i in Finset.Ico lag n, d i ^ 2 + ∑ i in Finset.Ico lag n, d (i - lag) ^ 2) / 2 := by
        rw [← Finset.sum_div, Finset.sum_add_distrib]
    _ ≤ ∑ i in Finset.range n, d i ^ 2 := by linarith

theorem length_mul_variance (data : List ℚ) (h : data ≠ []) :
    (data.length : ℚ) * seriesVariance data =
      ∑ i in Finset.range data.length, (data.getD i 0 - seriesMean data) ^ 2 := by
  have hn : (data.length : ℚ) ≠ 0 := by
    have : data.length ≠ 0 := fun h0 => h (List.length_eq_zero.1 h0)
    exact_mod_cast this
  unfold seriesVariance
  rw [mul_div_cancel₀ _ hn, sum_map_eq_sum_range (fun x => (x - seriesMean data) ^ 2)]

theorem acfSpec_bounds (data : List ℚ) (lag : ℕ) (hvar : 0 < seriesVariance data) :
    ∃ v, acfSpec data lag = some v ∧ -1 ≤ v ∧ v ≤ 1 := by
  have hne : data ≠ [] := by
    intro h0
    rw [h0] at hvar
    simp [seriesVariance] at hvar
  have hn : (0 : ℚ) < data.length := by
    have : data.length ≠ 0 := fun h0 => hne (List.length_eq_zero.1 h0)
    exact_mod_cast Nat.pos_of_ne_zero this
  have hpos : 0 < (data.length : ℚ) * seriesVariance data := mul_pos hn hvar
  have hS := length_mul_variance data hne
  have habs := autocov_abs_le (fun i => data.getD i 0 - seriesMean data) lag data.length
  simp only at habs
  rw [← hS] at habs
  obtain ⟨hlo, hhi⟩ := abs_le.1 habs
  refine ⟨_, by rw [acfSpec, if_neg (ne_of_gt hpos)], ?_, ?_⟩
  · rw [le_div_iff₀ hpos]
    linarith
  · rw [div_le_iff₀ hpos]
    linarith

/-- Claim C17. For every series with strictly positive variance and every
`maxLag`, every value of the autocorrelogram returned by `detectSeasonality`
is a number of the closed interval `[-1, 1]`. -/
theorem autocorr_in_unit_interval (data : List ℚ) (maxLag : ℕ)
    (hvar : 0 < seriesVariance data) :
    ∀ e ∈ (detectSeasonality data maxLag).autocorr,
      ∃ v, e.value = some v ∧ -1 ≤ v ∧ v ≤ 1 := by
  intro e he
  change e ∈ autocorrelogram data maxLag at he
  rw [autocorrelogram_eq] at he
  obtain ⟨i, _, rfl⟩ := List.mem_map.1 he
  exact acfSpec_bounds data (i + 1) hvar

theorem autocorr_in_unit_interval_witness :
    0 < seriesVariance scenarioSeries ∧
    ∀ e ∈ (detectSeasonality scenarioSeries 24).autocorr,
      ∃ v, e.value = some v ∧ -1 ≤ v ∧ v ≤ 1 :=
  ⟨by decide!, autocorr_in_unit_interval scenarioSeries 24 (by decide!)⟩

/-! ## Seasonal indices of the additive Holt-Winters model -/

theorem hwAddStateAfter_succ (data : List ℚ) (alpha beta gamma : ℚ) (season k : ℕ) :
    hwAddStateAfter data alpha beta gamma season (k + 1) =
      hwAddStep data alpha beta gamma season
        (hwAddStateAfter data alpha beta gamma season k) (k + 1) := by
  unfold hwAddStateAfter
  rw [List.range'_concat, List.foldl_append]
  simp [Nat.add_comm]

theorem holtWintersAdditive_eq (data : List ℚ) (alpha beta gamma : ℚ) (season : ℕ)
    (h1 : 1 ≤ season) (h2 : season < data.length) :
    holtWintersAdditive data alpha beta gamma season =
      (hwAddStateAfter data alpha beta gamma season (data.length - 1)).result.map some := by
  cases data with
  | nil => simp at h2
  | cons x0 rest =>
    have hcond : ¬ (season = 0 ∨ (x0 :: rest).length ≤ season) := by
      rintro (h | h) <;> omega
    simp only [holtWintersAdditive, if_neg hcond]
    rfl

theorem getD_set_ne (l : List ℚ) (i idx : ℕ) (v : ℚ) (h : idx ≠ i) :
    (l.set i v).getD idx 0 = l.getD idx 0 := by
  simp only [List.getD_eq_getElem?_getD]
  rw [List.getElem?_set_ne (Ne.symm h)]

/-- The seasonal values read by the main loop of `holtWintersAdditive` are frozen
after their first write: iteration `k + 1` writes index `k + 1` only, so the
entry at an index `idx ≤ k` after `k` iterations is the one left by iteration
`idx` (the seed when `idx = 0`). -/
theorem hwAdd_seasonal_frozen (data : List ℚ) (alpha beta gamma : ℚ) (season idx k : ℕ)
    (h : idx ≤ k) :
    (hwAddStateAfter data alpha beta gamma season k).seasonal.getD idx 0 =
      (hwAddStateAfter data alpha beta gamma season idx).seasonal.getD idx 0 := by
  induction k with
  | zero =>
    have : idx = 0 := by omega
    rw [this]
  | succ k ih =>
    rcases Nat.lt_or_ge idx (k + 1) with hlt | hge
    · rw [hwAddStateAfter_succ]
      have hne : idx ≠ k + 1 := by omega
      show ((hwAddStateAfter data alpha beta gamma season k).seasonal.set (k + 1) _).getD idx 0 = _
      rw [getD_set_ne _ _ _ _ hne]
      exact ih (by omega)
    · have : idx = k + 1 := by omega
      rw [this]

/-- The seasonal value read at a position `i ≥ season` by `holtWintersAdditive`
is the one left by iteration `i mod season` of the first cycle. -/
theorem hwAdd_read_first_cycle (data : List ℚ) (alpha beta gamma : ℚ) (season i : ℕ)
    (h1 : 1 ≤ season) (hi : season ≤ i) :
    (hwAddStateAfter data alpha beta gamma season (i - 1)).seasonal.getD (i % season) 0 =
      (hwAddStateAfter data alpha beta gamma season (i % season)).seasonal.getD
        (i % season) 0 := by
  apply hwAdd_seasonal_frozen
  have : i % season < season := Nat.mod_lt _ (by omega)
  omega

/-- Claim C12, evaluated on the code. On the series `[1, 2, 4, 3, 6, 5, 8]` with
`season = 2`, at position `i = 5` the main loop of `holtWintersAdditive` reads
`seasonal[1]`, which still holds the value written by iteration `1`; the
updated seasonal value `gamma * (x_3 - L_3) + (1 - gamma) * S_old` computed at
position `j = i - season = 3` was written at index `3`, is a different
number, and is never read. -/
theorem hwAdd_seasonal_not_cyclic :
    holtWintersAdditive driftSeries (3 / 10) (1 / 10) (1 / 10) 2 =
      (hwAddStateAfter driftSeries (3 / 10) (1 / 10) (1 / 10) 2 6).result.map some ∧
    (hwAddStateAfter driftSeries (3 / 10) (1 / 10) (1 / 10) 2 4).seasonal.getD (5 % 2) 0 =
      (hwAddStateAfter driftSeries (3 / 10) (1 / 10) (1 / 10) 2 1).seasonal.getD 1 0 ∧
    (hwAddStateAfter driftSeries (3 / 10) (1 / 10) (1 / 10) 2 3).seasonal.getD 3 0 =
      1 / 10 * (driftSeries.getD 3 0 -
        (hwAddStateAfter driftSeries (3 / 10) (1 / 10) (1 / 10) 2 3).level.getD 3 0) +
      (1 - 1 / 10) *
        (hwAddStateAfter driftSeries (3 / 10) (1 / 10) (1 / 10) 2 2).seasonal.getD (3 % 2) 0 ∧
    (hwAddStateAfter driftSeries (3 / 10) (1 / 10) (1 / 10) 2 4).seasonal.getD 3 0 =
      (hwAddStateAfter driftSeries (3 / 10) (1 / 10) (1 / 10) 2 3).seasonal.getD 3 0 ∧
    (hwAddStateAfter driftSeries (3 / 10) (1 / 10) (1 / 10) 2 4).seasonal.getD (5 % 2) 0 ≠
      (hwAddStateAfter driftSeries (3 / 10) (1 / 10) (1 / 10) 2 4).seasonal.getD (5 - 2) 0 ∧
    (hwAddStateAfter driftSeries (3 / 10) (1 / 10) (1 / 10) 2 5).result.getD 5 0 =
      (hwAddStateAfter driftSeries (3 / 10) (1 / 10) (1 / 10) 2 5).level.getD 5 0 +
      (hwAddStateAfter driftSeries (3 / 10) (1 / 10) (1 / 10) 2 5).trend.getD 5 0 +
      (hwAddStateAfter driftSeries (3 / 10) (1 / 10) (1 / 10) 2 1).seasonal.getD 1 0 := by
  decide!

/-! ## Division guards of the multiplicative Holt-Winters model -/

theorem orOne_ne_zero (x : ℚ) : orOne x ≠ 0 := by
  unfold orOne
  split
  · exact one_ne_zero
  · assumption

theorem jsNum_orOne_ne_zero (x : JsNum) : x.orOne ≠ JsNum.fin 0 := by
  cases x with
  | fin q =>
    by_cases hq : q = 0
    · simp [JsNum.orOne, hq]
    · simp [JsNum.orOne, hq]
  | posInf => simp [JsNum.orOne]
  | negInf => simp [JsNum.orOne]
  | nan => simp [JsNum.orOne]

theorem jsNum_divChecked_orOne (a x : JsNum) :
    JsNum.divChecked a x.orOne = some (JsNum.div a x.orOne) := by
  simp [JsNum.divChecked, jsNum_orOne_ne_zero]

theorem jsNum_ofReal_ne_zero (q : ℚ) (hq : 1 ≤ q) : JsNum.ofReal q ≠ JsNum.fin 0 := by
  have hmin : pow2 (-1022) ≤ q := le_trans pow2_min_le_half (by linarith)
  obtain ⟨hlo, _⟩ := abs_le.1 (roundDouble_sub_abs q hmin)
  have hpos : 0 < roundDouble q := by
    norm_num at hlo
    linarith
  unfold JsNum.ofReal
  split
  · simp
  · split
    · simp
    · intro h
      injection h with h
      exact (ne_of_gt hpos) h

theorem foldl_option_some {σ : Type} (f : σ → ℕ → σ) (g : Option σ → ℕ → Option σ)
    (hg : ∀ s i, g (some s) i = some (f s i)) (is : List ℕ) (s : σ) :
    is.foldl g (some s) = some (is.foldl f s) := by
  induction is generalizing s with
  | nil => rfl
  | cons i is ih =>
    rw [List.foldl_cons, List.foldl_cons, hg]
    exact ih _

theorem hwMultStepCheckedD_eq (data : List ℚ) (alpha beta gamma : ℚ) (season : ℕ)
    (st : HWStateD) (i : ℕ) :
    hwMultStepCheckedD data alpha beta gamma season st i =
      some (hwMultStepD data alpha beta gamma season st i) := by
  simp only [hwMultStepCheckedD, jsNum_divChecked_orOne, Option.some_bind, Option.map_some']
  rfl

theorem hwMultInitCheckedD_eq (data : List ℚ) (season : ℕ) (h1 : 1 ≤ season) :
    hwMultInitCheckedD data season = some (hwMultInitD data season) := by
  have hs : JsNum.ofReal (season : ℚ) ≠ JsNum.fin 0 :=
    jsNum_ofReal_ne_zero _ (by exact_mod_cast h1)
  have htrend : JsNum.divChecked (JsNum.sub (readNum data season) (readNum data 0))
      (JsNum.ofReal season) =
        some (JsNum.div (JsNum.sub (readNum data season) (readNum data 0))
          (JsNum.ofReal season)) := by
    simp [JsNum.divChecked, hs]
  have hfold := foldl_option_some
    (fun (s : List JsNum) i =>
      s.set i (JsNum.div (readNum data i) (JsNum.orOne (readNum data 0))))
    (fun s i => s.bind fun arr =>
      (JsNum.divChecked (readNum data i) (JsNum.orOne (readNum data 0))).map
        fun q => arr.set i q)
    (by intro s i; simp [jsNum_divChecked_orOne]) (List.range season)
    (List.replicate data.length (JsNum.fin 1))
  simp only [hwMultInitCheckedD, htrend, Option.some_bind]
  rw [hfold]
  rfl

theorem hwMultRunCheckedD_eq (data : List ℚ) (alpha beta gamma : ℚ) (season : ℕ)
    (h1 : 1 ≤ season) :
    hwMultRunCheckedD data alpha beta gamma season =
      some (hwMultRunD data alpha beta gamma season) := by
  unfold hwMultRunCheckedD hwMultRunD
  rw [hwMultInitCheckedD_eq data season h1]
  exact foldl_option_some (hwMultStepD data alpha beta gamma season)
    (fun s i => s.bind fun st => hwMultStepCheckedD data alpha beta gamma season st i)
    (by intro s i; simp [hwMultStepCheckedD_eq]) _ _

theorem foldl_set_length {α : Type} (f : ℕ → α) (is : List ℕ) (arr : List α) :
    (is.foldl (fun s i => s.set i (f i)) arr).length = arr.length := by
  induction is generalizing arr with
  | nil => rfl
  | cons i is ih => simp [ih]

theorem foldl_set_range_getD {α : Type} (f : ℕ → α) (d : α) (arr : List α) (k idx : ℕ)
    (hk : k ≤ arr.length) (hidx : idx < k) :
    ((List.range k).foldl (fun s i => s.set i (f i)) arr).getD idx d = f idx := by
  induction k with
  | zero => omega
  | succ k ih =>
    rw [List.range_succ, List.foldl_append]
    simp only [List.foldl_cons, List.foldl_nil, List.getD_eq_getElem?_getD]
    rcases Nat.lt_or_ge idx k with hlt | hge
    · rw [List.getElem?_set_ne (by omega)]
      have := ih (by omega) hlt
      simpa only [List.getD_eq_getElem?_getD] using this
    · have he : idx = k := by omega
      subst he
      rw [List.getElem?_set_self (by rw [foldl_set_length]; omega)]
      rfl

theorem hwMultD_result_length (data : List ℚ) (alpha beta gamma : ℚ) (season : ℕ)
    (is : List ℕ) (st : HWStateD) :
    (is.foldl (hwMultStepD data alpha beta gamma season) st).result.length =
      st.result.length + is.length := by
  induction is generalizing st with
  | nil => rfl
  | cons i is ih =>
    rw [List.foldl_cons, ih]
    simp [hwMultStepD]
    omega

theorem holtWintersMultiplicativeD_eq (data : List ℚ) (alpha beta gamma : ℚ) (season : ℕ)
    (h1 : 1 ≤ season) (h2 : season < data.length) :
    holtWintersMultiplicativeD data alpha beta gamma season =
      (hwMultRunD data alpha beta gamma season).result := by
  cases data with
  | nil => simp at h2
  | cons x0 rest =>
    have hcond : ¬ (season = 0 ∨ (x0 :: rest).length ≤ season) := by
      rintro (h | h) <;> omega
    simp only [holtWintersMultiplicativeD, if_neg hcond]

/-- Claim C13, refuted as stated. On the finite doubles
`[2^-600, 2^600, 2^-600, 2^600, 2^-600]` with `season = 2` no divisor is zero,
yet the seed `2^600 / 2^-600` of `seasonal[1]` overflows to `Infinity`, and the
forecasts of `holtWintersMultiplicative` at positions `1` and `3` are
`Infinity`: not every value is finite. -/
theorem holtWintersMultiplicative_overflow :
    (hwMultInitD overflowSeries 2).seasonal.get? 1 = some JsNum.posInf ∧
    (holtWintersMultiplicativeD overflowSeries (3 / 10) (1 / 10) (1 / 10) 2).get? 1 =
      some JsNum.posInf ∧
    (holtWintersMultiplicativeD overflowSeries (3 / 10) (1 / 10) (1 / 10) 2).get? 3 =
      some JsNum.posInf ∧
    hwMultRunCheckedD overflowSeries (3 / 10) (1 / 10) (1 / 10) 2 =
      some (hwMultRunD overflowSeries (3 / 10) (1 / 10) (1 / 10) 2) := by
  decide!

/-- Claim C13, amended. In `holtWintersMultiplicative` every division by a level
or a seasonal value is guarded: the divisor is `x || 1`, which is `1` when `x`
is exactly zero (or `NaN`) and `x` otherwise, and is never zero. For every
series with `n > season ≥ 1` the seed divides each `data[i]` by the guarded
`L_0`, the division by `season` is by a non-zero number, and the run in double
arithmetic with every division checked never meets a zero divisor and computes
the same arrays, one forecast per position. That the values are finite is
not part of the statement: an operation can overflow. -/
theorem holtWintersMultiplicative_guarded (data : List ℚ) (alpha beta gamma : ℚ)
    (season : ℕ) (h1 : 1 ≤ season) (h2 : season < data.length) :
    (∀ x : JsNum, x.orOne ≠ JsNum.fin 0 ∧
      (x ≠ JsNum.fin 0 → x ≠ JsNum.nan → x.orOne = x) ∧
      (x = JsNum.fin 0 → x.orOne = JsNum.fin 1)) ∧
    (∀ x : ℚ, orOne x ≠ 0 ∧ (x ≠ 0 → orOne x = x) ∧ (x = 0 → orOne x = 1)) ∧
    JsNum.ofReal (season : ℚ) ≠ JsNum.fin 0 ∧
    (∀ i, i < season →
      (hwMultInitD data season).seasonal.getD i JsNum.nan =
        JsNum.div (readNum data i) (JsNum.orOne (readNum data 0))) ∧
    hwMultInitCheckedD data season = some (hwMultInitD data season) ∧
    (∀ st i, hwMultStepCheckedD data alpha beta gamma season st i =
      some (hwMultStepD data alpha beta gamma season st i)) ∧
    hwMultRunCheckedD data alpha beta gamma season =
      some (hwMultRunD data alpha beta gamma season) ∧
    holtWintersMultiplicativeD data alpha beta gamma season =
      (hwMultRunD data alpha beta gamma season).result ∧
    (holtWintersMultiplicativeD data alpha beta gamma season).length = data.length := by
  have hlen : (hwMultRunD data alpha beta gamma season).result.length = data.length := by
    unfold hwMultRunD
    rw [hwMultD_result_length]
    simp [hwMultInitD]
    omega
  have heq := holtWintersMultiplicativeD_eq data alpha beta gamma season h1 h2
  refine ⟨fun x => ⟨jsNum_orOne_ne_zero x, ?_, ?_⟩,
    fun x => ⟨orOne_ne_zero x, fun hx => by simp [orOne, hx], fun hx => by simp [orOne, hx]⟩,
    jsNum_ofReal_ne_zero _ (by exact_mod_cast h1), ?_,
    hwMultInitCheckedD_eq data season h1,
    hwMultStepCheckedD_eq data alpha beta gamma season,
    hwMultRunCheckedD_eq data alpha beta gamma season h1, heq, ?_⟩
  · intro h0 hn
    cases x with
    | fin q =>
      have hq : q ≠ 0 := fun h => h0 (by rw [h])
      simp [JsNum.orOne, hq]
    | posInf => rfl
    | negInf => rfl
    | nan => exact absurd rfl hn
  · intro h0
    rw [h0]
    simp [JsNum.orOne]
  · intro i hi
    show ((List.range season).foldl
      (fun s i => s.set i (JsNum.div (readNum data i) (JsNum.orOne (readNum data 0))))
      (List.replicate data.length (JsNum.fin 1))).getD i JsNum.nan = _
    rw [foldl_set_range_getD
      (fun i => JsNum.div (readNum data i) (JsNum.orOne (readNum data 0))) JsNum.nan _ season i
      (by simp; omega) hi]
  · rw [heq, hlen]

theorem holtWintersMultiplicative_guarded_witness :
    1 ≤ 2 ∧ 2 < ([0, 2, 0, 3, 1] : List ℚ).length ∧
    (∀ x : JsNum, x.orOne ≠ JsNum.fin 0 ∧
      (x ≠ JsNum.fin 0 → x ≠ JsNum.nan → x.orOne = x) ∧
      (x = JsNum.fin 0 → x.orOne = JsNum.fin 1)) ∧
    (∀ x : ℚ, orOne x ≠ 0 ∧ (x ≠ 0 → orOne x = x) ∧ (x = 0 → orOne x = 1)) ∧
    JsNum.ofReal ((2 : ℕ) : ℚ) ≠ JsNum.fin 0 ∧
    (∀ i, i < 2 →
      (hwMultInitD [0, 2, 0, 3, 1] 2).seasonal.getD i JsNum.nan =
        JsNum.div (readNum [0, 2, 0, 3, 1] i) (JsNum.orOne (readNum [0, 2, 0, 3, 1] 0))) ∧
    hwMultInitCheckedD [0, 2, 0, 3, 1] 2 = some (hwMultInitD [0, 2, 0, 3, 1] 2) ∧
    (∀ st i, hwMultStepCheckedD [0, 2, 0, 3, 1] (3 / 10) (1 / 10) (1 / 10) 2 st i =
      some (hwMultStepD [0, 2, 0, 3, 1] (3 / 10) (1 / 10) (1 / 10) 2 st i)) ∧
    hwMultRunCheckedD [0, 2, 0, 3, 1] (3 / 10) (1 / 10) (1 / 10) 2 =
      some (hwMultRunD [0, 2, 0, 3, 1] (3 / 10) (1 / 10) (1 / 10) 2) ∧
    holtWintersMultiplicativeD [0, 2, 0, 3, 1] (3 / 10) (1 / 10) (1 / 10) 2 =
      (hwMultRunD [0, 2, 0, 3, 1] (3 / 10) (1 / 10) (1 / 10) 2).result ∧
    (holtWintersMultiplicativeD [0, 2, 0, 3, 1] (3 / 10) (1 / 10) (1 / 10) 2).length =
      ([0, 2, 0, 3, 1] : List ℚ).length :=
  ⟨by decide, by decide,
    holtWintersMultiplicative_guarded [0, 2, 0, 3, 1] (3 / 10) (1 / 10) (1 / 10) 2
      (by decide) (by decide)⟩

end TimeSeries
